import Mathlib

/-!
# Verification of the nautilus backtest core

A shallow embedding, in Lean 4, of the core of the deterministic
backtesting engine (`nautilus_core`): fixed-point scalars backed by
Python `decimal.Decimal`, the order state machine, the position engine,
the simulated matching engine, the risk/execution engines with the
cache, and the backtest driver's event loop.

Python `Decimal` values are modelled as exact rationals (`ℚ`) together
with the default decimal context: every arithmetic operation rounds its
result to 28 significant digits with round-half-even (`ctxRound`), and
`quantize(10^-p, ROUND_HALF_UP)` is modelled by `quantizeHalfUp`.
Exceptions raised by mutating methods are modelled by returning the
partially mutated state alongside an error value.

All arithmetic on `ℚ` inside the embedding is phrased through the
explicit constructors `qAdd`, `qSub`, `qMul`, `qDiv` (plus `mkRat`),
which compute by kernel reduction; they are proved equal to the standard
field operations on `ℚ` below, so symbolic reasoning can use ordinary
rational algebra.
-/

namespace Nautilus

/-! ## Kernel-computable rational arithmetic -/

/-- Rational addition via the normalizing constructor. -/
def qAdd (x y : ℚ) : ℚ := mkRat (x.num * y.den + y.num * x.den) (x.den * y.den)

/-- Rational subtraction via the normalizing constructor. -/
def qSub (x y : ℚ) : ℚ := mkRat (x.num * y.den - y.num * x.den) (x.den * y.den)

/-- Rational multiplication via the normalizing constructor. -/
def qMul (x y : ℚ) : ℚ := mkRat (x.num * y.num) (x.den * y.den)

/-- Rational division via the normalizing constructor (`x / 0 = 0`). -/
def qDiv (x y : ℚ) : ℚ := Rat.divInt (x.num * y.den) (y.num * x.den)

/-- Minimum of two rationals, written out for kernel reduction. -/
def qmin (x y : ℚ) : ℚ := if x ≤ y then x else y

/-- Maximum of two rationals, written out for kernel reduction. -/
def qmax (x y : ℚ) : ℚ := if x ≤ y then y else x

/-- Absolute value of a rational, written out for kernel reduction. -/
def qabs (q : ℚ) : ℚ := if q < 0 then -q else q

theorem den_cast_ne_zero (x : ℚ) : (x.den : ℚ) ≠ 0 := by
  exact_mod_cast x.den_pos.ne'

theorem num_eq_mul_den (x : ℚ) : (x.num : ℚ) = x * x.den :=
  (div_eq_iff (den_cast_ne_zero x)).mp (Rat.num_div_den x)

theorem qAdd_eq (x y : ℚ) : qAdd x y = x + y := by
  rw [qAdd, Rat.mkRat_eq_div]
  push_cast
  rw [div_eq_iff (mul_ne_zero (den_cast_ne_zero x) (den_cast_ne_zero y)),
    num_eq_mul_den x, num_eq_mul_den y]
  ring

theorem qSub_eq (x y : ℚ) : qSub x y = x - y := by
  rw [qSub, Rat.mkRat_eq_div]
  push_cast
  rw [div_eq_iff (mul_ne_zero (den_cast_ne_zero x) (den_cast_ne_zero y)),
    num_eq_mul_den x, num_eq_mul_den y]
  ring

theorem qMul_eq (x y : ℚ) : qMul x y = x * y := by
  rw [qMul, Rat.mkRat_eq_div]
  push_cast
  rw [div_eq_iff (mul_ne_zero (den_cast_ne_zero x) (den_cast_ne_zero y)),
    num_eq_mul_den x, num_eq_mul_den y]
  ring

theorem qDiv_eq (x y : ℚ) : qDiv x y = x / y := by
  rw [qDiv, Rat.divInt_eq_div]
  rcases eq_or_ne y 0 with hy | hy
  · subst hy; simp
  · have hynum : (y.num : ℚ) ≠ 0 := by
      exact_mod_cast Rat.num_ne_zero.mpr hy
    push_cast
    rw [div_eq_div_iff (mul_ne_zero hynum (den_cast_ne_zero x)) hy,
      num_eq_mul_den x, num_eq_mul_den y]
    ring

theorem qmin_eq (x y : ℚ) : qmin x y = min x y := by
  rw [qmin, min_def]

theorem qmax_eq (x y : ℚ) : qmax x y = max x y := by
  rw [qmax, max_def]

theorem qabs_eq (q : ℚ) : qabs q = |q| := by
  rcases lt_or_le q 0 with h | h
  · rw [qabs, if_pos h, abs_of_neg h]
  · rw [qabs, if_neg (not_lt.mpr h), abs_of_nonneg h]

/-! ## Decimal arithmetic (Python `decimal` module semantics) -/

/-- `10 ^ p` as a rational, via natural-number power. -/
def tenPow (p : ℕ) : ℚ := ((10 ^ p : ℕ) : ℚ)

/-- `10 ^ e` as a rational, for an integer exponent. -/
def tenPowZ : ℤ → ℚ
  | .ofNat n => tenPow n
  | .negSucc n => mkRat 1 (10 ^ (n + 1))

/-- Round a rational to the nearest integer, ties away from zero.
This is Python's `ROUND_HALF_UP`. -/
def roundHalfUp (q : ℚ) : ℤ :=
  if 0 ≤ q then (qAdd q (mkRat 1 2)).floor else -((qAdd (-q) (mkRat 1 2)).floor)

/-- Round a rational to the nearest integer, ties to the even integer.
This is Python's `ROUND_HALF_EVEN`, the default context rounding. -/
def roundHalfEven (q : ℚ) : ℤ :=
  let n := q.floor
  let f := qSub q (n : ℚ)
  if f < mkRat 1 2 then n
  else if mkRat 1 2 < f then n + 1
  else if n % 2 = 0 then n else n + 1

/-- `quantizeHalfUp p q` models `Decimal.quantize(Decimal(10) ** -p,
ROUND_HALF_UP)`: the value rounded to `p` decimal places, half away from
zero. -/
def quantizeHalfUp (p : ℕ) (q : ℚ) : ℚ :=
  mkRat (roundHalfUp (qMul q (tenPow p))) (10 ^ p)

/-- Number of base-10 digits of `n` (1 for `n = 0`), by fuel recursion so
that it evaluates by kernel reduction. -/
def digitCountAux : ℕ → ℕ → ℕ
  | 0, _ => 0
  | fuel + 1, n => if n < 10 then 1 else digitCountAux fuel (n / 10) + 1

/-- Number of base-10 digits of `n`. -/
def digitCount (n : ℕ) : ℕ := digitCountAux (n + 1) n

/-- The decimal exponent of a nonzero rational: the unique `e` with
`10^e ≤ |q| < 10^(e+1)`, computed from the digit counts of numerator and
denominator with a one-step correction. -/
def decExp (q : ℚ) : ℤ :=
  let a := q.num.natAbs
  let b := q.den
  let c : ℤ := (digitCount a : ℤ) - (digitCount b : ℤ)
  if tenPowZ c ≤ qabs q then
    (if tenPowZ (c + 1) ≤ qabs q then c + 1 else c)
  else c - 1

/-- Rounding applied by Python's default decimal context to the result of
every `Decimal` arithmetic operation: keep 28 significant digits, round
half to even. -/
def ctxRound (q : ℚ) : ℚ :=
  if q = 0 then 0
  else
    let s := tenPowZ ((27 : ℤ) - decExp q)
    qDiv ((roundHalfEven (qMul q s) : ℤ) : ℚ) s

/-- `Decimal` addition under the default context. -/
def dAdd (x y : ℚ) : ℚ := ctxRound (qAdd x y)

/-- `Decimal` subtraction under the default context. -/
def dSub (x y : ℚ) : ℚ := ctxRound (qSub x y)

/-- `Decimal` multiplication under the default context. -/
def dMul (x y : ℚ) : ℚ := ctxRound (qMul x y)

/-- `Decimal` true division under the default context. -/
def dDiv (x y : ℚ) : ℚ := ctxRound (qDiv x y)

theorem ctxRound_zero : ctxRound 0 = 0 := by simp [ctxRound]

/-! ## Scalar types: `Price`, `Quantity` (objects.py) -/

/-- `Price`: a decimal value quantized half-up at the declared precision.
The constructor performs the quantization and never fails. -/
structure Price where
  value : ℚ
  precision : ℕ
deriving Repr, DecidableEq

/-- `Price.__init__`: quantize the input half-up at the precision. -/
def mkPrice (v : ℚ) (p : ℕ) : Price :=
  { value := quantizeHalfUp p v, precision := p }

/-- `Quantity`: a decimal value quantized half-up at the declared
precision; must be non-negative. -/
structure Quantity where
  value : ℚ
  precision : ℕ
deriving Repr, DecidableEq

/-- `Quantity.__init__`: quantize the input half-up at the precision and
fail (raise `ValueError`) when the quantized value is negative.
The negativity check runs on the value *after* quantization. -/
def mkQuantity (v : ℚ) (p : ℕ) : Option Quantity :=
  let q := quantizeHalfUp p v
  if q < 0 then none else some { value := q, precision := p }

/-- Internal quantity construction at sites where the source value is
provably non-negative (`Quantity(abs(...), prec)`), so that the
`ValueError` branch of the constructor is unreachable. -/
def quantityOfNonneg (v : ℚ) (p : ℕ) : Quantity :=
  { value := quantizeHalfUp p v, precision := p }

end Nautilus

example : Nautilus.mkQuantity (mkRat (-1) 250) 2 = some ⟨0, 2⟩ := by decide
example : Nautilus.mkQuantity (-1) 0 = none := by decide
example : Nautilus.ctxRound (mkRat 5 3) = mkRat 1666666666666666666666666667 (10 ^ 27) := by decide
example : Nautilus.ctxRound 15000 = 15000 := by decide
example : Nautilus.ctxRound (mkRat 1 2) = mkRat 1 2 := by decide
example : Nautilus.dDiv 1 3 = mkRat 3333333333333333333333333333 (10 ^ 28) := by decide

namespace Nautilus

theorem ratFloor_eq (q : ℚ) : q.floor = ⌊q⌋ :=
  (Rat.floor_def' q).trans Rat.floor_def.symm

/-! ## Identifiers and enums (identifiers.py, enums.py) -/

/-- `InstrumentId`: the pair of a symbol and a venue (both opaque ids). -/
structure InstrumentId where
  symbol : ℕ
  venue : ℕ
deriving Repr, DecidableEq

/-- `OrderSide`. -/
inductive OrderSide
  | BUY
  | SELL
deriving Repr, DecidableEq

/-- `OrderType`. -/
inductive OrderType
  | MARKET
  | LIMIT
  | STOP_MARKET
  | STOP_LIMIT
deriving Repr, DecidableEq

/-- `OrderStatus`. -/
inductive OrderStatus
  | INITIALIZED
  | DENIED
  | SUBMITTED
  | ACCEPTED
  | REJECTED
  | CANCELED
  | EXPIRED
  | TRIGGERED
  | PENDING_UPDATE
  | PENDING_CANCEL
  | PARTIALLY_FILLED
  | FILLED
deriving Repr, DecidableEq

open OrderStatus in
/-- `ORDER_STATUS_TRANSITIONS`: the allowed target statuses for each
source status; statuses absent from the dict (the terminal ones) map to
the empty set via `.get(status, set())`. -/
def allowedTransitions : OrderStatus → List OrderStatus
  | INITIALIZED => [DENIED, SUBMITTED]
  | SUBMITTED => [ACCEPTED, REJECTED, CANCELED]
  | ACCEPTED =>
    [CANCELED, EXPIRED, TRIGGERED, PENDING_UPDATE, PENDING_CANCEL, PARTIALLY_FILLED, FILLED]
  | TRIGGERED => [CANCELED, EXPIRED, PENDING_UPDATE, PENDING_CANCEL, PARTIALLY_FILLED, FILLED]
  | PENDING_UPDATE => [ACCEPTED, CANCELED, EXPIRED, TRIGGERED, PARTIALLY_FILLED, FILLED]
  | PENDING_CANCEL => [CANCELED, ACCEPTED, PARTIALLY_FILLED, FILLED]
  | PARTIALLY_FILLED =>
    [CANCELED, EXPIRED, PENDING_UPDATE, PENDING_CANCEL, PARTIALLY_FILLED, FILLED]
  | _ => []

/-! ## Order events (events.py) -/

/-- The order events understood by `Order.apply`, with only the payload
fields the state machine reads.  `ts` is the event's `ts_event`. -/
inductive OrderEvent
  | initializedEv (ts : ℤ)
  | denied (ts : ℤ)
  | submitted (ts : ℤ)
  | accepted (venueOrderId : Option ℕ) (ts : ℤ)
  | rejected (ts : ℤ)
  | canceled (ts : ℤ)
  | expired (ts : ℤ)
  | updated (quantity : Option Quantity) (price : Option Price) (trigger : Option Price) (ts : ℤ)
  | filled (lastQty : Quantity) (lastPx : Price) (venueOrderId : Option ℕ) (ts : ℤ)
deriving Repr, DecidableEq

/-- The `ts_event` of an order event. -/
def OrderEvent.ts : OrderEvent → ℤ
  | .initializedEv t => t
  | .denied t => t
  | .submitted t => t
  | .accepted _ t => t
  | .rejected t => t
  | .canceled t => t
  | .expired t => t
  | .updated _ _ _ t => t
  | .filled _ _ _ t => t

/-- Whether the event is a pure status event (dispatched through
`_EVENT_TO_STATUS` rather than `_apply_filled` / `_apply_updated`). -/
def OrderEvent.isStatusEvent : OrderEvent → Bool
  | .updated _ _ _ _ => false
  | .filled _ _ _ _ => false
  | _ => true

open OrderStatus in
/-- `_EVENT_TO_STATUS` for the pure status events. -/
def OrderEvent.targetStatus : OrderEvent → OrderStatus
  | .initializedEv _ => INITIALIZED
  | .denied _ => DENIED
  | .submitted _ => SUBMITTED
  | .accepted _ _ => ACCEPTED
  | .rejected _ => REJECTED
  | .canceled _ => CANCELED
  | .expired _ => EXPIRED
  | .updated _ _ _ _ => ACCEPTED
  | .filled _ _ _ _ => FILLED

/-! ## The order entity (orders.py) -/

/-- The `Order` entity.  The type-specialised subclasses are folded into
one record: `price` is present on limit and stop-limit orders,
`triggerPrice` on the stop variants. -/
structure Order where
  clientOrderId : ℕ
  instrumentId : InstrumentId
  strategyId : ℕ
  side : OrderSide
  orderType : OrderType
  quantity : Quantity
  price : Option Price
  triggerPrice : Option Price
  status : OrderStatus
  filledQty : Quantity
  leavesQty : Quantity
  avgPx : ℚ
  venueOrderId : Option ℕ
  events : List OrderEvent
  tsInit : ℤ
  tsLast : ℤ
deriving Repr, DecidableEq

/-- `Order.__init__` from an `OrderInitialized` event: status
`INITIALIZED`, `filled_qty = Quantity(0, prec)`,
`leaves_qty = Quantity(quantity.value, prec)` (the identity on the
already-quantized input value), `avg_px = 0`, the init event recorded. -/
def mkOrder (cid : ℕ) (iid : InstrumentId) (sid : ℕ) (side : OrderSide)
    (otype : OrderType) (qty : Quantity) (price trigger : Option Price) (ts : ℤ) : Order :=
  { clientOrderId := cid
    instrumentId := iid
    strategyId := sid
    side := side
    orderType := otype
    quantity := qty
    price := price
    triggerPrice := trigger
    status := .INITIALIZED
    filledQty := ⟨0, qty.precision⟩
    leavesQty := ⟨qty.value, qty.precision⟩
    avgPx := 0
    venueOrderId := none
    events := [.initializedEv ts]
    tsInit := ts
    tsLast := ts }

/-- `Order.is_open`. -/
def Order.isOpen (o : Order) : Bool :=
  o.status = .ACCEPTED ∨ o.status = .TRIGGERED ∨ o.status = .PENDING_UPDATE ∨
    o.status = .PENDING_CANCEL ∨ o.status = .PARTIALLY_FILLED

/-- `Order.is_closed`. -/
def Order.isClosed (o : Order) : Bool :=
  o.status = .DENIED ∨ o.status = .REJECTED ∨ o.status = .CANCELED ∨
    o.status = .EXPIRED ∨ o.status = .FILLED

/-- Errors raised by `Order.apply`: the `RuntimeError` from
`_check_transition`, and the `ValueError` from the `Quantity`
constructor when a recomputed quantity is negative. -/
inductive ApplyError
  | illegalTransition (src tgt : OrderStatus)
  | negativeQuantity
deriving Repr, DecidableEq

/-- `Order._apply_filled` followed by the tail of `Order.apply`
(event append and `ts_last`).  Mutations occur in source order, so a
failure returns the partially mutated order: `avg_px` is updated before
`filled_qty`, which is updated before `leaves_qty`, which is updated
before the transition check. -/
def applyFilled (o : Order) (lastQty : Quantity) (lastPx : Price)
    (vid : Option ℕ) (ts : ℤ) : Order × Option ApplyError :=
  let fillQty := lastQty.value
  let fillPx := lastPx.value
  let prevFilled := o.filledQty.value
  let newFilled := dAdd prevFilled fillQty
  let avg' := if 0 < newFilled then
      dDiv (dAdd (dMul o.avgPx prevFilled) (dMul fillPx fillQty)) newFilled
    else o.avgPx
  let oA := { o with avgPx := avg' }
  match mkQuantity newFilled o.quantity.precision with
  | none => (oA, some .negativeQuantity)
  | some filled' =>
    let oB := { oA with filledQty := filled' }
    match mkQuantity (dSub o.quantity.value newFilled) o.quantity.precision with
    | none => (oB, some .negativeQuantity)
    | some leaves' =>
      let oC := { oB with leavesQty := leaves' }
      let tgt : OrderStatus := if leaves'.value = 0 then .FILLED else .PARTIALLY_FILLED
      if tgt ∈ allowedTransitions o.status then
        let oD := { oC with status := tgt }
        let oE := match vid with
          | some v => { oD with venueOrderId := some v }
          | none => oD
        ({ oE with events := o.events ++ [.filled lastQty lastPx vid ts], tsLast := ts }, none)
      else (oC, some (.illegalTransition o.status tgt))

/-- `Order._apply_updated` followed by the tail of `Order.apply`.
The new quantity is stored before `leaves_qty` is recomputed, so a
negative recomputed leaves quantity leaves `quantity` already mutated.
Price and trigger updates are performed by the subclasses after the
superclass call, hence only on success and only on the variants carrying
those fields. -/
def applyUpdated (o : Order) (qty : Option Quantity) (px : Option Price)
    (trig : Option Price) (ts : ℤ) : Order × Option ApplyError :=
  let step : Order × Option ApplyError :=
    match qty with
    | some nq =>
      let o1 := { o with quantity := nq }
      match mkQuantity (dSub nq.value o.filledQty.value) nq.precision with
      | none => (o1, some .negativeQuantity)
      | some lv => ({ o1 with leavesQty := lv }, none)
    | none => (o, none)
  match step with
  | (o2, some e) => (o2, some e)
  | (o2, none) =>
    if OrderStatus.ACCEPTED ∈ allowedTransitions o.status then
      let o3 := { o2 with status := .ACCEPTED }
      let o4 := if (o.orderType = .LIMIT ∨ o.orderType = .STOP_LIMIT) ∧ px.isSome then
          { o3 with price := px } else o3
      let o5 := if (o.orderType = .STOP_MARKET ∨ o.orderType = .STOP_LIMIT) ∧ trig.isSome then
          { o4 with triggerPrice := trig } else o4
      ({ o5 with events := o.events ++ [.updated qty px trig ts], tsLast := ts }, none)
    else (o2, some (.illegalTransition o.status .ACCEPTED))

/-- `Order.apply`.  Returns the order state after the call together with
`none` on success, or the raised error; on an error the returned order
is the state the mutations reached before the exception. -/
def applyOrder (o : Order) (e : OrderEvent) : Order × Option ApplyError :=
  match e with
  | .filled lastQty lastPx vid ts => applyFilled o lastQty lastPx vid ts
  | .updated qty px trig ts => applyUpdated o qty px trig ts
  | ev =>
    let tgt := ev.targetStatus
    if tgt ∈ allowedTransitions o.status then
      let o1 := { o with status := tgt }
      let o2 := match ev with
        | .accepted (some v) _ => { o1 with venueOrderId := some v }
        | _ => o1
      ({ o2 with events := o.events ++ [ev], tsLast := ev.ts }, none)
    else (o, some (.illegalTransition o.status tgt))

/-- Left fold of `Order.apply` over a list of events, stopping at the
first raised error (a raised error aborts the caller). -/
def applyEvents (o : Order) (es : List OrderEvent) : Order × Option ApplyError :=
  match es with
  | [] => (o, none)
  | e :: rest =>
    match applyOrder o e with
    | (o', none) => applyEvents o' rest
    | (o', some err) => (o', some err)

end Nautilus

namespace Nautilus

/-! ## Characterization lemmas for the order state machine -/

theorem mkQuantity_eq_some {v : ℚ} {p : ℕ} {q : Quantity}
    (h : mkQuantity v p = some q) :
    q = ⟨quantizeHalfUp p v, p⟩ ∧ 0 ≤ q.value := by
  simp only [mkQuantity] at h
  split at h
  · exact absurd h (by simp)
  · rename_i hn
    cases h
    exact ⟨rfl, le_of_not_lt hn⟩

theorem mkQuantity_of_quantize_nonneg {v : ℚ} {p : ℕ}
    (h : 0 ≤ quantizeHalfUp p v) :
    mkQuantity v p = some ⟨quantizeHalfUp p v, p⟩ := by
  simp only [mkQuantity]
  rw [if_neg (not_lt.mpr h)]

/-- Success shape of `_apply_filled`: on a successful fill the
aggregates and status are the recomputed values, the quantity and its
precision are unchanged, and the fill event is appended. -/
theorem applyFilled_ok {o : Order} {lq : Quantity} {lpx : Price}
    {vid : Option ℕ} {ts : ℤ} {o' : Order}
    (hap : applyFilled o lq lpx vid ts = (o', none)) :
    o'.filledQty = ⟨quantizeHalfUp o.quantity.precision (dAdd o.filledQty.value lq.value),
        o.quantity.precision⟩ ∧
    o'.leavesQty = ⟨quantizeHalfUp o.quantity.precision
        (dSub o.quantity.value (dAdd o.filledQty.value lq.value)), o.quantity.precision⟩ ∧
    o'.quantity = o.quantity ∧
    o'.avgPx = (if 0 < dAdd o.filledQty.value lq.value then
        dDiv (dAdd (dMul o.avgPx o.filledQty.value) (dMul lpx.value lq.value))
          (dAdd o.filledQty.value lq.value)
      else o.avgPx) ∧
    o'.status = (if quantizeHalfUp o.quantity.precision
        (dSub o.quantity.value (dAdd o.filledQty.value lq.value)) = 0 then
        OrderStatus.FILLED else OrderStatus.PARTIALLY_FILLED) ∧
    o'.status ∈ allowedTransitions o.status ∧
    o'.events = o.events ++ [.filled lq lpx vid ts] := by
  simp only [applyFilled] at hap
  cases hm1 : mkQuantity (dAdd o.filledQty.value lq.value) o.quantity.precision with
  | none =>
    simp only [hm1, Prod.mk.injEq] at hap
    exact absurd hap.2 (by simp)
  | some f' =>
    simp only [hm1] at hap
    cases hm2 : mkQuantity (dSub o.quantity.value (dAdd o.filledQty.value lq.value))
        o.quantity.precision with
    | none =>
      simp only [hm2, Prod.mk.injEq] at hap
      exact absurd hap.2 (by simp)
    | some l' =>
      simp only [hm2] at hap
      obtain ⟨hf, -⟩ := mkQuantity_eq_some hm1
      obtain ⟨hl, -⟩ := mkQuantity_eq_some hm2
      subst hf hl
      cases vid <;> split at hap <;> split at hap <;> simp at hap <;>
        (subst hap
         refine ⟨rfl, rfl, rfl, rfl, ?_, ?_, rfl⟩ <;> first | assumption | simp_all)


/-- Success shape of a pure status event: the target status is adopted,
the event is appended, and every other field except possibly
`venue_order_id` is unchanged. -/
theorem applyStatus_ok {o : Order} {e : OrderEvent} (he : e.isStatusEvent = true)
    (hmem : e.targetStatus ∈ allowedTransitions o.status) :
    (applyOrder o e).2 = none ∧
    (applyOrder o e).1.status = e.targetStatus ∧
    (applyOrder o e).1.quantity = o.quantity ∧
    (applyOrder o e).1.filledQty = o.filledQty ∧
    (applyOrder o e).1.leavesQty = o.leavesQty ∧
    (applyOrder o e).1.avgPx = o.avgPx ∧
    (applyOrder o e).1.events = o.events ++ [e] ∧
    (applyOrder o e).1.instrumentId = o.instrumentId ∧
    (applyOrder o e).1.clientOrderId = o.clientOrderId ∧
    (applyOrder o e).1.strategyId = o.strategyId ∧
    (applyOrder o e).1.side = o.side ∧
    (applyOrder o e).1.orderType = o.orderType ∧
    (applyOrder o e).1.price = o.price ∧
    (applyOrder o e).1.triggerPrice = o.triggerPrice := by
  cases e with
  | updated q p t ts => simp [OrderEvent.isStatusEvent] at he
  | filled a b c ts => simp [OrderEvent.isStatusEvent] at he
  | accepted vid ts =>
    cases vid <;> simp_all [applyOrder, OrderEvent.targetStatus]
  | initializedEv ts => simp_all [applyOrder, OrderEvent.targetStatus]
  | denied ts => simp_all [applyOrder, OrderEvent.targetStatus]
  | submitted ts => simp_all [applyOrder, OrderEvent.targetStatus]
  | rejected ts => simp_all [applyOrder, OrderEvent.targetStatus]
  | canceled ts => simp_all [applyOrder, OrderEvent.targetStatus]
  | expired ts => simp_all [applyOrder, OrderEvent.targetStatus]

/-- Failure shape of a pure status event: the illegal-transition error is
raised and the order is returned fully unchanged. -/
theorem applyStatus_err {o : Order} {e : OrderEvent} (he : e.isStatusEvent = true)
    (hmem : e.targetStatus ∉ allowedTransitions o.status) :
    applyOrder o e = (o, some (.illegalTransition o.status e.targetStatus)) := by
  cases e with
  | updated q p t ts => simp [OrderEvent.isStatusEvent] at he
  | filled a b c ts => simp [OrderEvent.isStatusEvent] at he
  | accepted vid ts =>
    cases vid <;> simp_all [applyOrder, OrderEvent.targetStatus]
  | initializedEv ts => simp_all [applyOrder, OrderEvent.targetStatus]
  | denied ts => simp_all [applyOrder, OrderEvent.targetStatus]
  | submitted ts => simp_all [applyOrder, OrderEvent.targetStatus]
  | rejected ts => simp_all [applyOrder, OrderEvent.targetStatus]
  | canceled ts => simp_all [applyOrder, OrderEvent.targetStatus]
  | expired ts => simp_all [applyOrder, OrderEvent.targetStatus]

/-- Success shape of `_apply_updated`: status becomes `ACCEPTED` (which
must be an allowed target), `filled_qty` is unchanged, and when a new
quantity is given it is adopted with `leaves_qty` recomputed at the new
quantity's precision. -/
theorem applyUpdated_ok {o : Order} {qty : Option Quantity} {px trig : Option Price}
    {ts : ℤ} {o' : Order}
    (hap : applyUpdated o qty px trig ts = (o', none)) :
    o'.status = .ACCEPTED ∧ OrderStatus.ACCEPTED ∈ allowedTransitions o.status ∧
    o'.filledQty = o.filledQty ∧
    (∀ nq, qty = some nq →
      o'.quantity = nq ∧
      o'.leavesQty = ⟨quantizeHalfUp nq.precision (dSub nq.value o.filledQty.value),
        nq.precision⟩) ∧
    (qty = none → o'.quantity = o.quantity ∧ o'.leavesQty = o.leavesQty) ∧
    o'.events = o.events ++ [.updated qty px trig ts] := by
  cases qty with
  | none =>
    simp only [applyUpdated] at hap
    split at hap
    · split at hap <;> split at hap <;> simp at hap <;>
        (subst hap; refine ⟨rfl, by assumption, rfl, by simp, fun _ => ⟨rfl, rfl⟩, rfl⟩)
    · simp at hap
  | some nq =>
    simp only [applyUpdated] at hap
    cases hm : mkQuantity (dSub nq.value o.filledQty.value) nq.precision with
    | none => simp only [hm] at hap; simp at hap
    | some lv =>
      simp only [hm] at hap
      obtain ⟨hl, -⟩ := mkQuantity_eq_some hm
      subst hl
      split at hap
      · split at hap <;> split at hap <;> simp at hap <;>
          (subst hap
           exact ⟨rfl, by assumption, rfl, fun nq2 h2 => by cases h2; exact ⟨rfl, rfl⟩,
             by simp, rfl⟩)
      · simp at hap

/-- Failure of any `Order.apply` leaves the status, the events list,
`ts_last` and `venue_order_id` unchanged. -/
theorem applyOrder_err {o : Order} {e : OrderEvent} {o' : Order} {err : ApplyError}
    (hap : applyOrder o e = (o', some err)) :
    o'.status = o.status ∧ o'.events = o.events ∧ o'.tsLast = o.tsLast ∧
      o'.venueOrderId = o.venueOrderId := by
  cases e with
  | filled lq lpx vid ts =>
    simp only [applyOrder, applyFilled] at hap
    cases hm1 : mkQuantity (dAdd o.filledQty.value lq.value) o.quantity.precision with
    | none =>
      simp only [hm1, Prod.mk.injEq] at hap
      obtain ⟨h1, -⟩ := hap
      subst h1
      exact ⟨rfl, rfl, rfl, rfl⟩
    | some f' =>
      simp only [hm1] at hap
      cases hm2 : mkQuantity (dSub o.quantity.value (dAdd o.filledQty.value lq.value))
          o.quantity.precision with
      | none =>
        simp only [hm2, Prod.mk.injEq] at hap
        obtain ⟨h1, -⟩ := hap
        subst h1
        exact ⟨rfl, rfl, rfl, rfl⟩
      | some l' =>
        simp only [hm2] at hap
        cases vid <;> split at hap <;> split at hap <;>
          simp only [Prod.mk.injEq] at hap <;>
          first
            | exact Option.noConfusion hap.2
            | (obtain ⟨h1, -⟩ := hap
               subst h1
               exact ⟨rfl, rfl, rfl, rfl⟩)
  | updated qty px trig ts =>
    cases qty with
    | none =>
      simp only [applyOrder, applyUpdated] at hap
      split at hap
      · simp only [Prod.mk.injEq] at hap
        exact Option.noConfusion hap.2
      · simp only [Prod.mk.injEq] at hap
        obtain ⟨h1, -⟩ := hap
        subst h1
        exact ⟨rfl, rfl, rfl, rfl⟩
    | some nq =>
      simp only [applyOrder, applyUpdated] at hap
      cases hm : mkQuantity (dSub nq.value o.filledQty.value) nq.precision with
      | none =>
        simp only [hm, Prod.mk.injEq] at hap
        obtain ⟨h1, -⟩ := hap
        subst h1
        exact ⟨rfl, rfl, rfl, rfl⟩
      | some lv =>
        simp only [hm] at hap
        split at hap
        · split at hap <;> split at hap <;>
            simp only [Prod.mk.injEq] at hap <;> exact Option.noConfusion hap.2
        · simp only [Prod.mk.injEq] at hap
          obtain ⟨h1, -⟩ := hap
          subst h1
          exact ⟨rfl, rfl, rfl, rfl⟩
  | accepted vid ts =>
    cases vid <;>
      (simp only [applyOrder, OrderEvent.targetStatus] at hap
       split at hap
       · simp at hap
       · simp only [Prod.mk.injEq] at hap
         obtain ⟨h1, -⟩ := hap
         subst h1
         exact ⟨rfl, rfl, rfl, rfl⟩)
  | initializedEv ts =>
    simp only [applyOrder, OrderEvent.targetStatus] at hap
    split at hap
    · simp at hap
    · simp only [Prod.mk.injEq] at hap
      obtain ⟨h1, -⟩ := hap
      subst h1
      exact ⟨rfl, rfl, rfl, rfl⟩
  | denied ts =>
    simp only [applyOrder, OrderEvent.targetStatus] at hap
    split at hap
    · simp at hap
    · simp only [Prod.mk.injEq] at hap
      obtain ⟨h1, -⟩ := hap
      subst h1
      exact ⟨rfl, rfl, rfl, rfl⟩
  | submitted ts =>
    simp only [applyOrder, OrderEvent.targetStatus] at hap
    split at hap
    · simp at hap
    · simp only [Prod.mk.injEq] at hap
      obtain ⟨h1, -⟩ := hap
      subst h1
      exact ⟨rfl, rfl, rfl, rfl⟩
  | rejected ts =>
    simp only [applyOrder, OrderEvent.targetStatus] at hap
    split at hap
    · simp at hap
    · simp only [Prod.mk.injEq] at hap
      obtain ⟨h1, -⟩ := hap
      subst h1
      exact ⟨rfl, rfl, rfl, rfl⟩
  | canceled ts =>
    simp only [applyOrder, OrderEvent.targetStatus] at hap
    split at hap
    · simp at hap
    · simp only [Prod.mk.injEq] at hap
      obtain ⟨h1, -⟩ := hap
      subst h1
      exact ⟨rfl, rfl, rfl, rfl⟩
  | expired ts =>
    simp only [applyOrder, OrderEvent.targetStatus] at hap
    split at hap
    · simp at hap
    · simp only [Prod.mk.injEq] at hap
      obtain ⟨h1, -⟩ := hap
      subst h1
      exact ⟨rfl, rfl, rfl, rfl⟩

/-- A successful `Order.apply` always moves to a status that is an
allowed target of the previous status. -/
theorem applyOrder_ok_status {o : Order} {e : OrderEvent} {o' : Order}
    (hap : applyOrder o e = (o', none)) :
    o'.status ∈ allowedTransitions o.status := by
  cases e with
  | filled lq lpx vid ts =>
    exact (applyFilled_ok hap).2.2.2.2.2.1
  | updated qty px trig ts =>
    obtain ⟨h1, h2, -⟩ := applyUpdated_ok hap
    rw [h1]; exact h2
  | initializedEv ts =>
    by_cases hmem : OrderEvent.targetStatus (.initializedEv ts) ∈ allowedTransitions o.status
    · have h := applyStatus_ok (e := .initializedEv ts) rfl hmem
      rw [hap] at h
      rw [h.2.1]; exact hmem
    · rw [applyStatus_err (e := .initializedEv ts) rfl hmem] at hap
      exact Option.noConfusion (congrArg Prod.snd hap)
  | denied ts =>
    by_cases hmem : OrderEvent.targetStatus (.denied ts) ∈ allowedTransitions o.status
    · have h := applyStatus_ok (e := .denied ts) rfl hmem
      rw [hap] at h
      rw [h.2.1]; exact hmem
    · rw [applyStatus_err (e := .denied ts) rfl hmem] at hap
      exact Option.noConfusion (congrArg Prod.snd hap)
  | submitted ts =>
    by_cases hmem : OrderEvent.targetStatus (.submitted ts) ∈ allowedTransitions o.status
    · have h := applyStatus_ok (e := .submitted ts) rfl hmem
      rw [hap] at h
      rw [h.2.1]; exact hmem
    · rw [applyStatus_err (e := .submitted ts) rfl hmem] at hap
      exact Option.noConfusion (congrArg Prod.snd hap)
  | accepted vid ts =>
    by_cases hmem : OrderEvent.targetStatus (.accepted vid ts) ∈ allowedTransitions o.status
    · have h := applyStatus_ok (e := .accepted vid ts) rfl hmem
      rw [hap] at h
      rw [h.2.1]; exact hmem
    · rw [applyStatus_err (e := .accepted vid ts) rfl hmem] at hap
      exact Option.noConfusion (congrArg Prod.snd hap)
  | rejected ts =>
    by_cases hmem : OrderEvent.targetStatus (.rejected ts) ∈ allowedTransitions o.status
    · have h := applyStatus_ok (e := .rejected ts) rfl hmem
      rw [hap] at h
      rw [h.2.1]; exact hmem
    · rw [applyStatus_err (e := .rejected ts) rfl hmem] at hap
      exact Option.noConfusion (congrArg Prod.snd hap)
  | canceled ts =>
    by_cases hmem : OrderEvent.targetStatus (.canceled ts) ∈ allowedTransitions o.status
    · have h := applyStatus_ok (e := .canceled ts) rfl hmem
      rw [hap] at h
      rw [h.2.1]; exact hmem
    · rw [applyStatus_err (e := .canceled ts) rfl hmem] at hap
      exact Option.noConfusion (congrArg Prod.snd hap)
  | expired ts =>
    by_cases hmem : OrderEvent.targetStatus (.expired ts) ∈ allowedTransitions o.status
    · have h := applyStatus_ok (e := .expired ts) rfl hmem
      rw [hap] at h
      rw [h.2.1]; exact hmem
    · rw [applyStatus_err (e := .expired ts) rfl hmem] at hap
      exact Option.noConfusion (congrArg Prod.snd hap)

/-! ## Claim C2: the order state machine's transition contract -/

/-- Input for the C2 counterexample: an order driven to `FILLED`
through submit, accept and a full fill. -/
def c2Order : Order :=
  (applyEvents (mkOrder 1 ⟨1, 1⟩ 1 .BUY .MARKET ⟨100, 0⟩ none none 0)
    [.submitted 1, .accepted (some 5) 2, .filled ⟨100, 0⟩ ⟨150, 2⟩ (some 5) 3]).1

/-- C2 counterexample: a fill event applied to an order in the terminal
status `FILLED` does fail, but it does **not** leave the order
unchanged — `avg_px` and `filled_qty` are already mutated when the
exception is raised (`filled_qty` becomes 150 on a quantity-100 order) —
and the error raised is the negative-quantity `ValueError` from the
`Quantity` constructor, not the illegal-transition error. -/
theorem C2_counterexample :
    c2Order.status = OrderStatus.FILLED ∧
    (applyOrder c2Order (.filled ⟨50, 0⟩ ⟨150, 2⟩ none 4)).2 ≠ none ∧
    (applyOrder c2Order (.filled ⟨50, 0⟩ ⟨150, 2⟩ none 4)).1.filledQty.value = 150 ∧
    c2Order.quantity.value = 100 ∧
    (applyOrder c2Order (.filled ⟨50, 0⟩ ⟨150, 2⟩ none 4)).1 ≠ c2Order ∧
    (applyOrder c2Order (.filled ⟨50, 0⟩ ⟨150, 2⟩ none 4)).2 =
      some ApplyError.negativeQuantity := by
  decide

/-- C2 (amended): for pure status events, `Order.apply` succeeds iff the
event's target status is in the allowed-transition set of the current
status, and on failure it raises the illegal-transition error and leaves
the order fully unchanged.  For fill and update events the transition
rule still gates success — a successful apply always lands on an allowed
target, so a fill on a terminal status always fails — but a failing fill
or update may have already mutated the quantity aggregates; only the
status, the events list, `ts_last` and `venue_order_id` are guaranteed
unchanged on any failure. -/
theorem C2_apply_transition_contract :
    (∀ (o : Order) (e : OrderEvent), e.isStatusEvent = true →
      (((applyOrder o e).2 = none) ↔ e.targetStatus ∈ allowedTransitions o.status) ∧
      ((applyOrder o e).2 ≠ none → (applyOrder o e).1 = o ∧
        (applyOrder o e).2 = some (.illegalTransition o.status e.targetStatus))) ∧
    (∀ (o : Order) (e : OrderEvent) (o' : Order) (err : ApplyError),
      applyOrder o e = (o', some err) →
      o'.status = o.status ∧ o'.events = o.events ∧ o'.tsLast = o.tsLast ∧
        o'.venueOrderId = o.venueOrderId) ∧
    (∀ (o : Order) (e : OrderEvent) (o' : Order),
      applyOrder o e = (o', none) → o'.status ∈ allowedTransitions o.status) := by
  refine ⟨?_, fun o e o' err hap => applyOrder_err hap,
    fun o e o' hap => applyOrder_ok_status hap⟩
  intro o e he
  by_cases hmem : e.targetStatus ∈ allowedTransitions o.status
  · have h := applyStatus_ok he hmem
    exact ⟨by simp [h.1, hmem], fun hne => absurd h.1 hne⟩
  · rw [applyStatus_err he hmem]
    exact ⟨by simp [hmem], fun _ => ⟨rfl, rfl⟩⟩

/-- Witness for C2: a `submitted` event on a fresh `INITIALIZED` order
succeeds, via the amended contract with its hypotheses discharged
concretely. -/
theorem C2_witness :
    (applyOrder (mkOrder 1 ⟨1, 1⟩ 1 .BUY .MARKET ⟨100, 0⟩ none none 0)
      (.submitted 1)).2 = none := by
  have h := (C2_apply_transition_contract.1
    (mkOrder 1 ⟨1, 1⟩ 1 .BUY .MARKET ⟨100, 0⟩ none none 0) (.submitted 1) rfl).1
  exact h.mpr (by decide)

/-! ## Claim C8: negative quantity construction -/

/-- C8 counterexample: `Quantity(-0.004, 2)` does **not** fail — the
input is negative, but its half-up quantization at precision 2 is `0`,
and the constructor checks the sign only after quantization; the
construction succeeds and yields a zero quantity. -/
theorem C8_counterexample :
    mkRat (-1) 250 < 0 ∧
    mkQuantity (mkRat (-1) 250) 2 = some ⟨0, 2⟩ := by
  decide

/-- C8 (amended): `Quantity` construction fails iff the input's half-up
quantization at the declared precision is negative; a negative input
whose quantization rounds to zero is accepted (as a zero quantity). -/
theorem C8_quantity_construction :
    ∀ (v : ℚ) (p : ℕ), mkQuantity v p = none ↔ quantizeHalfUp p v < 0 := by
  intro v p
  by_cases h : quantizeHalfUp p v < 0 <;> simp [mkQuantity, h]

/-! ## Exact-arithmetic side conditions (claims C3 and C5) -/

/-- Decidable check that, for one fill applied to order state `o`, every
`Decimal` operation performed by `_apply_filled` is exact: the context
rounding and the quantizations at the order's quantity precision are the
identity, and the fill quantity is non-negative. -/
def cleanFillChecks (o : Order) (lq : Quantity) (lpx : Price) : Bool :=
  let F := o.filledQty.value
  let q := lq.value
  let px := lpx.value
  let p := o.quantity.precision
  let qv := o.quantity.value
  decide (0 ≤ q) &&
  decide (dAdd F q = qAdd F q) &&
  decide (quantizeHalfUp p (qAdd F q) = qAdd F q) &&
  decide (dSub qv (qAdd F q) = qSub qv (qAdd F q)) &&
  decide (quantizeHalfUp p (qSub qv (qAdd F q)) = qSub qv (qAdd F q)) &&
  decide (dMul o.avgPx F = qMul o.avgPx F) &&
  decide (dMul px q = qMul px q) &&
  decide (dAdd (qMul o.avgPx F) (qMul px q) = qAdd (qMul o.avgPx F) (qMul px q)) &&
  decide (dDiv (qAdd (qMul o.avgPx F) (qMul px q)) (qAdd F q)
    = qDiv (qAdd (qMul o.avgPx F) (qMul px q)) (qAdd F q))

/-- Decidable check that the `Decimal` operations performed by
`_apply_updated` for a quantity change are exact. -/
def cleanUpdateChecks (o : Order) (qty : Option Quantity) : Bool :=
  match qty with
  | some nq =>
    decide (dSub nq.value o.filledQty.value = qSub nq.value o.filledQty.value) &&
    decide (quantizeHalfUp nq.precision (qSub nq.value o.filledQty.value)
      = qSub nq.value o.filledQty.value)
  | none => true

/-- The per-event exactness check. -/
def eventChecks (o : Order) : OrderEvent → Bool
  | .filled lq lpx _ _ => cleanFillChecks o lq lpx
  | .updated qty _ _ _ => cleanUpdateChecks o qty
  | _ => true

/-- Decidable check that an event sequence applies without error and
with exact decimal arithmetic at every step. -/
def cleanEvents (o : Order) : List OrderEvent → Bool
  | [] => true
  | e :: rest =>
    eventChecks o e &&
      match applyOrder o e with
      | (o', none) => cleanEvents o' rest
      | (_, some _) => false

/-- Fields of an order after a successful pure status event. -/
theorem applyStatus_ok_of_success {o : Order} {e : OrderEvent} {o' : Order}
    (he : e.isStatusEvent = true) (hap : applyOrder o e = (o', none)) :
    e.targetStatus ∈ allowedTransitions o.status ∧
    o'.status = e.targetStatus ∧ o'.quantity = o.quantity ∧ o'.filledQty = o.filledQty ∧
    o'.leavesQty = o.leavesQty ∧ o'.avgPx = o.avgPx ∧ o'.events = o.events ++ [e] ∧
    o'.instrumentId = o.instrumentId ∧ o'.clientOrderId = o.clientOrderId ∧
    o'.strategyId = o.strategyId ∧ o'.side = o.side ∧ o'.orderType = o.orderType ∧
    o'.price = o.price ∧ o'.triggerPrice = o.triggerPrice := by
  by_cases hmem : e.targetStatus ∈ allowedTransitions o.status
  · have h := applyStatus_ok he hmem
    rw [hap] at h
    exact ⟨hmem, h.2⟩
  · rw [applyStatus_err he hmem] at hap
    exact absurd (congrArg Prod.snd hap) (by simp)

/-- One clean successful event preserves non-negativity of `filled_qty`
and the invariant `filled_qty + leaves_qty = quantity`. -/
theorem cleanStep_invariant {o o' : Order} {e : OrderEvent}
    (hap : applyOrder o e = (o', none))
    (hchecks : eventChecks o e = true)
    (hnn : 0 ≤ o.filledQty.value)
    (hinv : o.filledQty.value + o.leavesQty.value = o.quantity.value) :
    0 ≤ o'.filledQty.value ∧
      o'.filledQty.value + o'.leavesQty.value = o'.quantity.value := by
  cases e with
  | filled lq lpx vid ts =>
    obtain ⟨hf, hl, hq, -⟩ := applyFilled_ok hap
    simp only [eventChecks, cleanFillChecks, Bool.and_eq_true, decide_eq_true_eq,
      and_assoc] at hchecks
    obtain ⟨h1, h2, h3, h4, h5, -⟩ := hchecks
    rw [hf, hl, hq]
    simp only [h2, h3, h4, h5]
    rw [qAdd_eq, qSub_eq]
    constructor
    · exact add_nonneg hnn h1
    · ring
  | updated qty px trig ts =>
    obtain ⟨hst, hmem, hfq, hsomeq, hnoneq, hev⟩ := applyUpdated_ok hap
    cases qty with
    | none =>
      obtain ⟨hq, hl⟩ := hnoneq rfl
      rw [hfq, hq, hl]
      exact ⟨hnn, hinv⟩
    | some nq =>
      obtain ⟨hq, hl⟩ := hsomeq nq rfl
      simp only [eventChecks, cleanUpdateChecks, Bool.and_eq_true, decide_eq_true_eq,
        and_assoc] at hchecks
      obtain ⟨hA, hB⟩ := hchecks
      rw [hfq, hq, hl]
      simp only [hA, hB]
      rw [qSub_eq]
      exact ⟨hnn, by ring⟩
  | initializedEv ts =>
    obtain ⟨-, -, hq, hf, hl, -⟩ := applyStatus_ok_of_success (by rfl) hap
    rw [hq, hf, hl]; exact ⟨hnn, hinv⟩
  | denied ts =>
    obtain ⟨-, -, hq, hf, hl, -⟩ := applyStatus_ok_of_success (by rfl) hap
    rw [hq, hf, hl]; exact ⟨hnn, hinv⟩
  | submitted ts =>
    obtain ⟨-, -, hq, hf, hl, -⟩ := applyStatus_ok_of_success (by rfl) hap
    rw [hq, hf, hl]; exact ⟨hnn, hinv⟩
  | accepted vid ts =>
    obtain ⟨-, -, hq, hf, hl, -⟩ := applyStatus_ok_of_success (by rfl) hap
    rw [hq, hf, hl]; exact ⟨hnn, hinv⟩
  | rejected ts =>
    obtain ⟨-, -, hq, hf, hl, -⟩ := applyStatus_ok_of_success (by rfl) hap
    rw [hq, hf, hl]; exact ⟨hnn, hinv⟩
  | canceled ts =>
    obtain ⟨-, -, hq, hf, hl, -⟩ := applyStatus_ok_of_success (by rfl) hap
    rw [hq, hf, hl]; exact ⟨hnn, hinv⟩
  | expired ts =>
    obtain ⟨-, -, hq, hf, hl, -⟩ := applyStatus_ok_of_success (by rfl) hap
    rw [hq, hf, hl]; exact ⟨hnn, hinv⟩

/-! ## Claim C3: the `filled + leaves = quantity` invariant -/

/-- Input for the C3 counterexample: an accepted order of quantity 100
at size precision 0. -/
def c3Order : Order :=
  (applyEvents (mkOrder 2 ⟨1, 1⟩ 1 .BUY .MARKET ⟨100, 0⟩ none none 0)
    [.submitted 1, .accepted (some 7) 2]).1

/-- C3 counterexample: a fill of 0.5 (precision 1) applied to an
accepted order of quantity 100 (precision 0) **succeeds**, but half-up
quantization at the order's precision rounds `filled_qty` to 1 and
`leaves_qty` to 100, so `filled_qty + leaves_qty = 101 ≠ 100 = quantity`
after a successful application. -/
theorem C3_counterexample :
    (applyOrder c3Order (.filled ⟨mkRat 1 2, 1⟩ ⟨150, 2⟩ none 3)).2 = none ∧
    (applyOrder c3Order (.filled ⟨mkRat 1 2, 1⟩ ⟨150, 2⟩ none 3)).1.filledQty.value = 1 ∧
    (applyOrder c3Order (.filled ⟨mkRat 1 2, 1⟩ ⟨150, 2⟩ none 3)).1.leavesQty.value = 100 ∧
    (applyOrder c3Order (.filled ⟨mkRat 1 2, 1⟩ ⟨150, 2⟩ none 3)).1.quantity.value = 100 ∧
    (1 : ℚ) + 100 ≠ 100 := by
  refine ⟨by decide, by decide, by decide, by decide, by norm_num⟩

/-- C3 (amended): for every order satisfying the invariant and every
event sequence whose fills and quantity updates are exact at the order's
quantity precision and within the 28-digit decimal context (as checked
by `cleanEvents`; all fills generated by the simulated exchange are of
this shape), applying the sequence through `Order.apply` succeeds and
preserves `filled_qty + leaves_qty = quantity` after each application. -/
theorem C3_invariant (es : List OrderEvent) (o : Order)
    (hnn : 0 ≤ o.filledQty.value)
    (hinv : o.filledQty.value + o.leavesQty.value = o.quantity.value)
    (hc : cleanEvents o es = true) :
    (applyEvents o es).2 = none ∧
    (applyEvents o es).1.filledQty.value + (applyEvents o es).1.leavesQty.value
      = (applyEvents o es).1.quantity.value := by
  induction es generalizing o with
  | nil => exact ⟨rfl, hinv⟩
  | cons e rest ih =>
    simp only [cleanEvents, Bool.and_eq_true] at hc
    obtain ⟨hchecks, hrest⟩ := hc
    cases hap : applyOrder o e with
    | mk o' err =>
      rw [hap] at hrest
      cases err with
      | some e' => simp at hrest
      | none =>
        simp only at hrest
        obtain ⟨hnn', hinv'⟩ := cleanStep_invariant hap hchecks hnn hinv
        have : applyEvents o (e :: rest) = applyEvents o' rest := by
          simp only [applyEvents, hap]
        rw [this]
        exact ih o' hnn' hinv' hrest

/-- Input for the C3 witness: a fresh order of quantity 100. -/
def c3WitnessOrder : Order := mkOrder 3 ⟨1, 1⟩ 1 .BUY .MARKET ⟨100, 0⟩ none none 0

/-- Events for the C3 witness: submit, accept, partial fill, full fill. -/
def c3WitnessEvents : List OrderEvent :=
  [.submitted 1, .accepted (some 9) 2,
   .filled ⟨60, 0⟩ ⟨150, 2⟩ none 3, .filled ⟨40, 0⟩ ⟨151, 2⟩ none 4]

/-- Witness for C3 at a concrete order and event sequence. -/
theorem C3_witness :
    (applyEvents c3WitnessOrder c3WitnessEvents).1.filledQty.value +
        (applyEvents c3WitnessOrder c3WitnessEvents).1.leavesQty.value =
      (applyEvents c3WitnessOrder c3WitnessEvents).1.quantity.value :=
  (C3_invariant c3WitnessEvents c3WitnessOrder (by decide)
    (by simp [c3WitnessOrder, mkOrder]) (by decide)).2

/-! ## Claim C5: the average fill price -/

/-- Total filled quantity of a fill list (exact arithmetic). -/
def fillQtySum (fills : List (Quantity × Price)) : ℚ :=
  (fills.map (fun f => f.1.value)).sum

/-- Total notional of a fill list (exact arithmetic). -/
def fillNotional (fills : List (Quantity × Price)) : ℚ :=
  (fills.map (fun f => f.2.value * f.1.value)).sum

/-- Modelled from the spec: the exact quantity-weighted mean of the fill
prices, `(Σ last_px·last_qty) / (Σ last_qty)` with exact (unrounded)
rational arithmetic. -/
def weightedMean (fills : List (Quantity × Price)) : ℚ :=
  fillNotional fills / fillQtySum fills

/-- The order events corresponding to a list of fills. -/
def fillEvents (fills : List (Quantity × Price)) : List OrderEvent :=
  fills.map (fun f => .filled f.1 f.2 none 0)

theorem applyOrder_filled (o : Order) (lq : Quantity) (lpx : Price)
    (vid : Option ℕ) (ts : ℤ) :
    applyOrder o (.filled lq lpx vid ts) = applyFilled o lq lpx vid ts := rfl

/-- Inductive core for C5: under exact arithmetic, `_apply_filled`'s
incremental update accumulates the weighted mean, tracked with the
running notional `S`. -/
theorem avg_px_aux (fills : List (Quantity × Price)) (o : Order) (S : ℚ)
    (hA : o.avgPx = S / o.filledQty.value)
    (hF : 0 ≤ o.filledQty.value)
    (hz : o.filledQty.value = 0 → S = 0)
    (hc : cleanEvents o (fillEvents fills) = true) :
    (applyEvents o (fillEvents fills)).1.avgPx
      = (S + fillNotional fills) / (o.filledQty.value + fillQtySum fills) ∧
    (applyEvents o (fillEvents fills)).1.filledQty.value
      = o.filledQty.value + fillQtySum fills := by
  induction fills generalizing o S with
  | nil =>
    simp only [fillEvents, List.map_nil, applyEvents, fillNotional, fillQtySum,
      List.sum_nil, add_zero]
    exact ⟨hA, trivial⟩
  | cons f rest ih =>
    obtain ⟨lq, lpx⟩ := f
    simp only [fillEvents, List.map_cons, cleanEvents, Bool.and_eq_true] at hc
    obtain ⟨hchecks, hrest⟩ := hc
    cases hap : applyOrder o (.filled lq lpx none 0) with
    | mk o' err =>
      rw [hap] at hrest
      cases err with
      | some e' => simp at hrest
      | none =>
        simp only at hrest
        rw [applyOrder_filled] at hap
        obtain ⟨hf', -, -, havg, -⟩ := applyFilled_ok hap
        simp only [eventChecks, cleanFillChecks, Bool.and_eq_true, decide_eq_true_eq,
          and_assoc] at hchecks
        obtain ⟨h1, h2, h3, -, -, h6, h7, h8, h9⟩ := hchecks
        -- the new filled quantity is exact
        have hfv : o'.filledQty.value = o.filledQty.value + lq.value := by
          rw [hf']
          show quantizeHalfUp o.quantity.precision (dAdd o.filledQty.value lq.value)
            = o.filledQty.value + lq.value
          rw [h2, h3, qAdd_eq]
        -- the new average price
        have havg' : o'.avgPx = (S + lpx.value * lq.value)
            / (o.filledQty.value + lq.value) := by
          rw [havg, h2]
          by_cases hpos : 0 < qAdd o.filledQty.value lq.value
          · rw [if_pos hpos, h6, h7, h8, h9, qDiv_eq, qAdd_eq, qMul_eq, qMul_eq,
              qAdd_eq] at *
            rcases eq_or_ne o.filledQty.value 0 with hF0 | hF0
            · have hS0 := hz hF0
              rw [hA, hF0, hS0]
              simp
            · rw [hA, div_mul_cancel₀ _ hF0]
          · rw [if_neg hpos]
            rw [qAdd_eq] at hpos
            have hq0 : lq.value = 0 := by
              have := add_nonneg hF h1
              nlinarith [le_of_not_lt hpos]
            have hF0 : o.filledQty.value = 0 := by
              nlinarith [le_of_not_lt hpos, hF, h1]
            rw [hA, hF0, hz hF0, hq0]
            simp
        have hF' : 0 ≤ o'.filledQty.value := by
          rw [hfv]; exact add_nonneg hF h1
        have hz' : o'.filledQty.value = 0 → S + lpx.value * lq.value = 0 := by
          intro h0
          rw [hfv] at h0
          have hq0 : lq.value = 0 := by nlinarith
          have hF0 : o.filledQty.value = 0 := by nlinarith
          rw [hz hF0, hq0]
          ring
        have hA' : o'.avgPx = (S + lpx.value * lq.value) / o'.filledQty.value := by
          rw [havg', hfv]
        have hstep : applyEvents o (fillEvents ((lq, lpx) :: rest))
            = applyEvents o' (fillEvents rest) := by
          simp only [fillEvents, List.map_cons, applyEvents, applyOrder_filled, hap]
        rw [hstep]
        obtain ⟨ihA, ihF⟩ := ih o' (S + lpx.value * lq.value) hA' hF' hz' hrest
        constructor
        · rw [ihA, hfv]
          simp only [fillNotional, fillQtySum, List.map_cons, List.sum_cons]
          congr 1 <;> ring
        · rw [ihF, hfv]
          simp only [fillQtySum, List.map_cons, List.sum_cons]
          ring

/-- Input for the C5 counterexample: an accepted order of quantity 3. -/
def c5cOrder : Order :=
  (applyEvents (mkOrder 4 ⟨1, 1⟩ 1 .BUY .MARKET ⟨3, 0⟩ none none 0)
    [.submitted 1, .accepted (some 11) 2]).1

/-- Fills for the C5 counterexample: 1 @ 1 then 2 @ 2. -/
def c5cFills : List (Quantity × Price) := [(⟨1, 0⟩, ⟨1, 2⟩), (⟨2, 0⟩, ⟨2, 2⟩)]

/-- C5 counterexample: after fills 1 @ 1 and 2 @ 2 the exact weighted
mean is `5/3`, but Python's `Decimal` division rounds the incremental
quotient to 28 significant digits (half-even), so `avg_px` is
`1.666666666666666666666666667`, **not** the exact mean — the
arithmetic is not exact. -/
theorem C5_counterexample :
    (applyEvents c5cOrder (fillEvents c5cFills)).2 = none ∧
    (applyEvents c5cOrder (fillEvents c5cFills)).1.avgPx
      = mkRat 1666666666666666666666666667 (10 ^ 27) ∧
    weightedMean c5cFills = mkRat 5 3 ∧
    (applyEvents c5cOrder (fillEvents c5cFills)).1.avgPx ≠ weightedMean c5cFills := by
  have h1 : (applyEvents c5cOrder (fillEvents c5cFills)).1.avgPx
      = mkRat 1666666666666666666666666667 (10 ^ 27) := by decide
  have h2 : weightedMean c5cFills = mkRat 5 3 := by
    simp only [weightedMean, fillNotional, fillQtySum, c5cFills, List.map_cons,
      List.map_nil, List.sum_cons, List.sum_nil, Rat.mkRat_eq_div]
    norm_num
  refine ⟨by decide, h1, h2, ?_⟩
  rw [h1, h2]
  decide

/-- C5 (amended): `avg_px` equals the quantity-weighted mean of the
applied fills **provided** every `Decimal` operation in the incremental
update is exact — no 28-significant-digit context rounding and no
quantization effect, as checked by `cleanEvents`; in general the
division is context-rounded and `avg_px` only approximates the exact
mean. -/
theorem C5_avg_px (fills : List (Quantity × Price)) (o : Order)
    (h0F : o.filledQty.value = 0) (h0A : o.avgPx = 0)
    (hc : cleanEvents o (fillEvents fills) = true) :
    (applyEvents o (fillEvents fills)).1.avgPx = weightedMean fills := by
  have h := avg_px_aux fills o 0 (by rw [h0A, h0F]; simp) (by rw [h0F]) (fun _ => rfl) hc
  rw [h.1, h0F, weightedMean]
  simp

/-- Input for the C5 witness: an accepted order of quantity 100. -/
def c5wOrder : Order :=
  (applyEvents (mkOrder 5 ⟨1, 1⟩ 1 .BUY .MARKET ⟨100, 0⟩ none none 0)
    [.submitted 1, .accepted (some 13) 2]).1

/-- Fills for the C5 witness: 60 @ 150 then 40 @ 151. -/
def c5wFills : List (Quantity × Price) := [(⟨60, 0⟩, ⟨150, 2⟩), (⟨40, 0⟩, ⟨151, 2⟩)]

/-- Witness for C5 at a concrete order and fill sequence. -/
theorem C5_witness :
    (applyEvents c5wOrder (fillEvents c5wFills)).1.avgPx = weightedMean c5wFills :=
  C5_avg_px c5wFills c5wOrder (by decide) (by decide) (by decide)

/-! ## Decimal-operation rewriting helpers -/

theorem dAdd_eq_ctx (x y : ℚ) : dAdd x y = ctxRound (x + y) := by rw [dAdd, qAdd_eq]

theorem dSub_eq_ctx (x y : ℚ) : dSub x y = ctxRound (x - y) := by rw [dSub, qSub_eq]

theorem dMul_eq_ctx (x y : ℚ) : dMul x y = ctxRound (x * y) := by rw [dMul, qMul_eq]

theorem dDiv_eq_ctx (x y : ℚ) : dDiv x y = ctxRound (x / y) := by rw [dDiv, qDiv_eq]

/-! ## The position engine (position.py) -/

/-- `PositionSide`. -/
inductive PositionSide
  | FLAT
  | LONG
  | SHORT
deriving Repr, DecidableEq

/-- The payload of an `OrderFilled` event read by the position and
account flow: side, fill quantity/price, and the (optional) commission
as an amount in a currency (identified by an opaque id). -/
structure OrderFilledEv where
  clientOrderId : ℕ
  orderSide : OrderSide
  lastQty : Quantity
  lastPx : Price
  commission : Option (ℕ × ℚ)
  tsEvent : ℤ
deriving Repr, DecidableEq

/-- Look up a key in an association list with a default. -/
def alistGetD (l : List (ℕ × ℚ)) (k : ℕ) (d : ℚ) : ℚ :=
  match l.find? (fun kv => kv.1 = k) with
  | some kv => kv.2
  | none => d

/-- Insert or overwrite a key in an association list, preserving
insertion order (Python `dict` assignment). -/
def alistPut (l : List (ℕ × ℚ)) (k : ℕ) (v : ℚ) : List (ℕ × ℚ) :=
  match l with
  | [] => [(k, v)]
  | kv :: rest => if kv.1 = k then (k, v) :: rest else kv :: alistPut rest k v

/-- The `Position` entity.  The stored fill events are tracked by count
(`is_closed` only reads the list's length). -/
structure Position where
  instrumentId : InstrumentId
  id : ℕ
  strategyId : ℕ
  side : PositionSide
  quantity : Quantity
  signedQty : ℚ
  avgPxOpen : ℚ
  avgPxClose : ℚ
  realizedPnl : ℚ
  commissions : List (ℕ × ℚ)
  eventsCount : ℕ
  qtyPrecision : ℕ
  pxPrecision : ℕ
deriving Repr, DecidableEq

/-- `Position._update_side_and_qty`. -/
def updateSideAndQty (p : Position) : Position :=
  let side := if 0 < p.signedQty then PositionSide.LONG
    else if p.signedQty < 0 then PositionSide.SHORT
    else PositionSide.FLAT
  { p with side := side, quantity := quantityOfNonneg (qabs p.signedQty) p.qtyPrecision }

/-- `Position._apply_buy`. -/
def applyBuy (p : Position) (fillQty fillPx : ℚ) : Position :=
  if p.side = .FLAT ∨ p.side = .LONG then
    let total := dAdd (qabs p.signedQty) fillQty
    let p1 := if 0 < total then
        { p with
          avgPxOpen := dDiv (dAdd (dMul p.avgPxOpen (qabs p.signedQty)) (dMul fillPx fillQty)) total }
      else p
    updateSideAndQty { p1 with signedQty := dAdd p1.signedQty fillQty }
  else
    let closeQty := qmin fillQty (qabs p.signedQty)
    let pnl := dMul closeQty (dSub p.avgPxOpen fillPx)
    let p1 := { p with realizedPnl := dAdd p.realizedPnl pnl }
    let remaining := dSub fillQty closeQty
    let p2 := { p1 with signedQty := dAdd p1.signedQty fillQty }
    let p3 := if 0 < remaining then
        { p2 with avgPxOpen := fillPx, avgPxClose := fillPx }
      else if p2.signedQty = 0 then { p2 with avgPxClose := fillPx } else p2
    updateSideAndQty p3

/-- `Position._apply_sell`. -/
def applySell (p : Position) (fillQty fillPx : ℚ) : Position :=
  if p.side = .FLAT ∨ p.side = .SHORT then
    let total := dAdd (qabs p.signedQty) fillQty
    let p1 := if 0 < total then
        { p with
          avgPxOpen := dDiv (dAdd (dMul p.avgPxOpen (qabs p.signedQty)) (dMul fillPx fillQty)) total }
      else p
    updateSideAndQty { p1 with signedQty := dSub p1.signedQty fillQty }
  else
    let closeQty := qmin fillQty (qabs p.signedQty)
    let pnl := dMul closeQty (dSub fillPx p.avgPxOpen)
    let p1 := { p with realizedPnl := dAdd p.realizedPnl pnl }
    let remaining := dSub fillQty closeQty
    let p2 := { p1 with signedQty := dSub p1.signedQty fillQty }
    let p3 := if 0 < remaining then
        { p2 with avgPxOpen := fillPx, avgPxClose := fillPx }
      else if p2.signedQty = 0 then { p2 with avgPxClose := fillPx } else p2
    updateSideAndQty p3

/-- `Position.apply`: commission tracking (skipped only when the fill
carries no commission object), then the side-specific update, then the
event is recorded. -/
def positionApplyFill (p : Position) (f : OrderFilledEv) : Position :=
  let p0 := match f.commission with
    | some (cur, amt) =>
      { p with commissions := alistPut p.commissions cur (dAdd (alistGetD p.commissions cur 0) amt) }
    | none => p
  let p1 := if f.orderSide = .BUY then applyBuy p0 f.lastQty.value f.lastPx.value
    else applySell p0 f.lastQty.value f.lastPx.value
  { p1 with eventsCount := p1.eventsCount + 1 }

/-- `Position.__init__`: a flat zeroed position to which the opening
fill is applied. -/
def mkPosition (iid : InstrumentId) (pid : ℕ) (sid : ℕ) (f : OrderFilledEv) : Position :=
  positionApplyFill
    { instrumentId := iid, id := pid, strategyId := sid, side := .FLAT,
      quantity := ⟨0, f.lastQty.precision⟩, signedQty := 0, avgPxOpen := 0,
      avgPxClose := 0, realizedPnl := 0, commissions := [], eventsCount := 0,
      qtyPrecision := f.lastQty.precision, pxPrecision := f.lastPx.precision } f

/-- `Position.is_open`. -/
def Position.isOpen (p : Position) : Bool := p.side ≠ .FLAT

/-- `Position.is_closed`. -/
def Position.isClosed (p : Position) : Bool := p.side = .FLAT ∧ 0 < p.eventsCount

theorem qabs_zero : qabs 0 = 0 := by decide

/-! ## Claim C6: round-trip P&L -/

/-- A fresh position opened by a BUY of `Q` at `P` and closed by a SELL
of `Q` at `P`, commissions absent. -/
def roundTripBuySell (Q P : ℚ) (qp pp : ℕ) : Position :=
  positionApplyFill (mkPosition ⟨1, 1⟩ 1 1 ⟨1, .BUY, ⟨Q, qp⟩, ⟨P, pp⟩, none, 0⟩)
    ⟨2, .SELL, ⟨Q, qp⟩, ⟨P, pp⟩, none, 1⟩

/-- A fresh position opened by a SELL of `Q` at `P` and closed by a BUY
of `Q` at `P`, commissions absent. -/
def roundTripSellBuy (Q P : ℚ) (qp pp : ℕ) : Position :=
  positionApplyFill (mkPosition ⟨1, 1⟩ 1 1 ⟨1, .SELL, ⟨Q, qp⟩, ⟨P, pp⟩, none, 0⟩)
    ⟨2, .BUY, ⟨Q, qp⟩, ⟨P, pp⟩, none, 1⟩

set_option maxHeartbeats 1600000 in
/-- C6: opening a fresh position with quantity `Q > 0` at price `P` and
closing it with the opposite side at the same price and quantity yields
`realized_pnl = 0`, `side = FLAT` and `is_closed = true`, in both
orderings (BUY then SELL, and SELL then BUY).  The hypotheses state that
`Q`, `-Q`, `P` and the notional `P·Q` are exactly representable in the
28-significant-digit decimal context, so no context rounding occurs. -/
theorem C6_round_trip (Q P : ℚ) (qp pp : ℕ)
    (hQ : 0 < Q) (hrQ : ctxRound Q = Q) (hrNQ : ctxRound (-Q) = -Q)
    (hrP : ctxRound P = P) (hrPQ : ctxRound (P * Q) = P * Q) :
    (roundTripBuySell Q P qp pp).realizedPnl = 0 ∧
    (roundTripBuySell Q P qp pp).side = .FLAT ∧
    (roundTripBuySell Q P qp pp).isClosed = true ∧
    (roundTripSellBuy Q P qp pp).realizedPnl = 0 ∧
    (roundTripSellBuy Q P qp pp).side = .FLAT ∧
    (roundTripSellBuy Q P qp pp).isClosed = true := by
  have hQ' : Q ≠ 0 := ne_of_gt hQ
  have hopenB : mkPosition ⟨1, 1⟩ 1 1 ⟨1, .BUY, ⟨Q, qp⟩, ⟨P, pp⟩, none, 0⟩ =
      { instrumentId := ⟨1, 1⟩, id := 1, strategyId := 1, side := .LONG,
        quantity := quantityOfNonneg Q qp, signedQty := Q, avgPxOpen := P,
        avgPxClose := 0, realizedPnl := 0, commissions := [], eventsCount := 1,
        qtyPrecision := qp, pxPrecision := pp } := by
    simp only [mkPosition, positionApplyFill, applyBuy, updateSideAndQty,
      dAdd_eq_ctx, dMul_eq_ctx, dDiv_eq_ctx, qabs_zero]
    simp only [zero_add, mul_zero, zero_mul, ctxRound_zero, hrQ, hrP, hrPQ,
      mul_div_cancel_right₀ _ hQ', if_pos hQ]
    simp [hQ, qabs_eq, abs_of_nonneg hQ.le]
  have hclosedB : roundTripBuySell Q P qp pp =
      { instrumentId := ⟨1, 1⟩, id := 1, strategyId := 1, side := .FLAT,
        quantity := quantityOfNonneg 0 qp, signedQty := 0, avgPxOpen := P,
        avgPxClose := P, realizedPnl := 0, commissions := [], eventsCount := 2,
        qtyPrecision := qp, pxPrecision := pp } := by
    rw [roundTripBuySell, hopenB]
    simp only [positionApplyFill, applySell, updateSideAndQty,
      dAdd_eq_ctx, dMul_eq_ctx, dSub_eq_ctx, qabs_eq, qmin_eq]
    simp only [abs_of_nonneg hQ.le, min_self, sub_self, ctxRound_zero, mul_zero,
      add_zero, zero_add, abs_zero]
    simp
  have hopenS : mkPosition ⟨1, 1⟩ 1 1 ⟨1, .SELL, ⟨Q, qp⟩, ⟨P, pp⟩, none, 0⟩ =
      { instrumentId := ⟨1, 1⟩, id := 1, strategyId := 1, side := .SHORT,
        quantity := quantityOfNonneg Q qp, signedQty := -Q, avgPxOpen := P,
        avgPxClose := 0, realizedPnl := 0, commissions := [], eventsCount := 1,
        qtyPrecision := qp, pxPrecision := pp } := by
    simp only [mkPosition, positionApplyFill, applySell, updateSideAndQty,
      dAdd_eq_ctx, dMul_eq_ctx, dDiv_eq_ctx, dSub_eq_ctx, qabs_zero]
    simp only [zero_add, zero_sub, mul_zero, zero_mul, ctxRound_zero, hrQ, hrNQ,
      hrP, hrPQ, mul_div_cancel_right₀ _ hQ', if_pos hQ]
    have h1 : ¬(0 < -Q) := by linarith
    have h2 : -Q < 0 := by linarith
    simp [h1, h2, qabs_eq, abs_of_nonneg hQ.le]
  have hclosedS : roundTripSellBuy Q P qp pp =
      { instrumentId := ⟨1, 1⟩, id := 1, strategyId := 1, side := .FLAT,
        quantity := quantityOfNonneg 0 qp, signedQty := 0, avgPxOpen := P,
        avgPxClose := P, realizedPnl := 0, commissions := [], eventsCount := 2,
        qtyPrecision := qp, pxPrecision := pp } := by
    rw [roundTripSellBuy, hopenS]
    simp only [positionApplyFill, applyBuy, updateSideAndQty,
      dAdd_eq_ctx, dMul_eq_ctx, dSub_eq_ctx, qabs_eq, qmin_eq]
    simp only [abs_neg, abs_of_nonneg hQ.le, min_self, sub_self, ctxRound_zero,
      mul_zero, add_zero, zero_add, abs_zero, neg_add_cancel]
    simp
  rw [hclosedB, hclosedS]
  exact ⟨rfl, rfl, by simp [Position.isClosed], rfl, rfl, by simp [Position.isClosed]⟩

/-- Witness for C6 at `Q = 100`, `P = 150`. -/
theorem C6_witness :
    (roundTripBuySell 100 150 0 2).realizedPnl = 0 ∧
    (roundTripBuySell 100 150 0 2).side = .FLAT ∧
    (roundTripBuySell 100 150 0 2).isClosed = true ∧
    (roundTripSellBuy 100 150 0 2).realizedPnl = 0 ∧
    (roundTripSellBuy 100 150 0 2).side = .FLAT ∧
    (roundTripSellBuy 100 150 0 2).isClosed = true :=
  C6_round_trip 100 150 0 2 (by norm_num) (by decide)
    (by decide)
    (by decide)
    (by
      have h : (150 : ℚ) * 100 = 15000 := by norm_num
      rw [h]
      decide)

/-- Counterexample to C6 as stated: for `Q = 3` and
`P = 9.999999999999999999999999999` (28 significant digits), the round
trip closes FLAT but realizes a nonzero PnL.  The notional `P*3` has 29
significant digits, so the context rounds `avg_px_open = (P*3)/3` up to
`10 != P`, and the close realizes `3*(P - 10) = -3e-27` — in both
orderings. -/
theorem C6_counterexample :
    (0 : ℚ) < 3 ∧
    (roundTripBuySell 3 (mkRat 9999999999999999999999999999 (10 ^ 27)) 0 27).side
      = .FLAT ∧
    (roundTripBuySell 3 (mkRat 9999999999999999999999999999 (10 ^ 27)) 0 27).isClosed
      = true ∧
    (roundTripBuySell 3 (mkRat 9999999999999999999999999999 (10 ^ 27)) 0 27).realizedPnl
      = mkRat (-3) (10 ^ 27) ∧
    (roundTripBuySell 3 (mkRat 9999999999999999999999999999 (10 ^ 27)) 0 27).realizedPnl
      ≠ 0 ∧
    (roundTripSellBuy 3 (mkRat 9999999999999999999999999999 (10 ^ 27)) 0 27).realizedPnl
      ≠ 0 := by decide

/-! ## Market data (data.py) -/

/-- `BarType`: identified by its instrument (the bar specification's
step/aggregation/price-type play no role in any embedded path). -/
structure BarType where
  instrumentId : InstrumentId
deriving Repr, DecidableEq

/-- `Bar` (OHLCV); the price fields `open/high/low/close` are named
`openPx/highPx/lowPx/closePx` because `open` is a Lean keyword. -/
structure Bar where
  barType : BarType
  openPx : Price
  highPx : Price
  lowPx : Price
  closePx : Price
  volume : Quantity
  tsEvent : ℤ
deriving Repr, DecidableEq

/-! ## Instruments (instruments.py) -/

/-- The instrument fields read by the risk engine and the exchange. -/
structure Instrument where
  id : InstrumentId
  pricePrecision : ℕ
  sizePrecision : ℕ
  takerFee : ℚ
  minQuantity : Option Quantity
  maxQuantity : Option Quantity
deriving Repr, DecidableEq

/-- Association-list lookup keyed by instrument id (Python `dict.get`). -/
def instFind (l : List (InstrumentId × Instrument)) (k : InstrumentId) : Option Instrument :=
  match l.find? (fun kv => kv.1 = k) with
  | some kv => some kv.2
  | none => none

/-! ## The cache (cache.py) -/

/-- Association-list lookup (Python `dict.get`). -/
def assocFind {α : Type} [DecidableEq α] {β : Type} (l : List (α × β)) (k : α) : Option β :=
  match l.find? (fun kv => kv.1 = k) with
  | some kv => some kv.2
  | none => none

/-- Association-list insertion preserving insertion order: overwrite in
place when the key exists, else append (Python `dict` assignment). -/
def assocPut {α : Type} [DecidableEq α] {β : Type} (l : List (α × β)) (k : α) (v : β) :
    List (α × β) :=
  match l with
  | [] => [(k, v)]
  | kv :: rest => if kv.1 = k then (k, v) :: rest else kv :: assocPut rest k v

/-- Append to the list stored at a key, creating it when absent
(Python `dict.setdefault(key, []).append(x)`). -/
def assocAppend {α : Type} [DecidableEq α] (l : List (α × List ℕ)) (k : α) (v : ℕ) :
    List (α × List ℕ) :=
  match l with
  | [] => [(k, [v])]
  | kv :: rest => if kv.1 = k then (kv.1, kv.2 ++ [v]) :: rest else kv :: assocAppend rest k v

/-- The in-memory cache.  Orders and positions are keyed by their ids;
the index maps hold lists of ids.  Bars/ticks stores are omitted (no
embedded path reads them). -/
structure CacheState where
  instruments : List (InstrumentId × Instrument)
  orders : List (ℕ × Order)
  ordersByVenue : List (ℕ × List ℕ)
  ordersByStrategy : List (ℕ × List ℕ)
  ordersByInstrument : List (InstrumentId × List ℕ)
  positions : List (ℕ × Position)
  positionsByVenue : List (ℕ × List ℕ)
  positionsByStrategy : List (ℕ × List ℕ)
  positionsByInstrument : List (InstrumentId × List ℕ)
deriving Repr, DecidableEq

/-- `Cache.instrument`. -/
def CacheState.instrument (c : CacheState) (iid : InstrumentId) : Option Instrument :=
  instFind c.instruments iid

/-- `Cache.add_order`: store in the primary map and append to all three
secondary indices. -/
def CacheState.addOrder (c : CacheState) (o : Order) : CacheState :=
  { c with
    orders := assocPut c.orders o.clientOrderId o
    ordersByVenue := assocAppend c.ordersByVenue o.instrumentId.venue o.clientOrderId
    ordersByStrategy := assocAppend c.ordersByStrategy o.strategyId o.clientOrderId
    ordersByInstrument := assocAppend c.ordersByInstrument o.instrumentId o.clientOrderId }

/-- `Cache.update_order`: store in the primary map only — the secondary
indices are never touched. -/
def CacheState.updateOrder (c : CacheState) (o : Order) : CacheState :=
  { c with orders := assocPut c.orders o.clientOrderId o }

/-- `Cache.order`. -/
def CacheState.order (c : CacheState) (cid : ℕ) : Option Order :=
  assocFind c.orders cid

/-- `Cache.orders` with the optional instrument/strategy filters:
an instrument filter wins over a strategy filter; with no filter, all
primary-map values in insertion order. -/
def CacheState.ordersQ (c : CacheState) (instrumentId : Option InstrumentId)
    (strategyId : Option ℕ) : List Order :=
  match instrumentId with
  | some iid =>
    ((assocFind c.ordersByInstrument iid).getD []).filterMap (fun cid => c.order cid)
  | none =>
    match strategyId with
    | some sid =>
      ((assocFind c.ordersByStrategy sid).getD []).filterMap (fun cid => c.order cid)
    | none => c.orders.map (fun kv => kv.2)

/-- `Cache.orders_for_venue`. -/
def CacheState.ordersForVenue (c : CacheState) (venue : ℕ) : List Order :=
  ((assocFind c.ordersByVenue venue).getD []).filterMap (fun cid => c.order cid)

/-- `Cache.add_position`. -/
def CacheState.addPosition (c : CacheState) (p : Position) : CacheState :=
  { c with
    positions := assocPut c.positions p.id p
    positionsByVenue := assocAppend c.positionsByVenue p.instrumentId.venue p.id
    positionsByStrategy := assocAppend c.positionsByStrategy p.strategyId p.id
    positionsByInstrument := assocAppend c.positionsByInstrument p.instrumentId p.id }

/-- `Cache.update_position`. -/
def CacheState.updatePosition (c : CacheState) (p : Position) : CacheState :=
  { c with positions := assocPut c.positions p.id p }

/-- `Cache.positions` filtered by instrument. -/
def CacheState.positionsQ (c : CacheState) (instrumentId : Option InstrumentId) :
    List Position :=
  match instrumentId with
  | some iid =>
    ((assocFind c.positionsByInstrument iid).getD []).filterMap
      (fun pid => assocFind c.positions pid)
  | none => c.positions.map (fun kv => kv.2)

/-- `Cache.positions_open` filtered by instrument. -/
def CacheState.positionsOpen (c : CacheState) (instrumentId : Option InstrumentId) :
    List Position :=
  (c.positionsQ instrumentId).filter (fun p => p.isOpen)

/-! ## The simulated exchange (backtest/exchange.py) -/

/-- The exchange together with its account.  The account holds one
balance, in the base currency (`update_balance`/`balance_free` with the
base currency only); `balance` is the stored (quantized) total = free
amount, `commissions` the accrued per-base-currency commission.  Open
orders are tracked by client order id — the Python list holds object
references aliased with the cache, so the current state of a resting
order is the cache's. -/
structure ExchangeState where
  venue : ℕ
  baseCurrency : ℕ
  currencyPrecision : ℕ
  instruments : List (InstrumentId × Instrument)
  openOrders : List ℕ
  balance : ℚ
  commissions : ℚ
  venueOrderCounter : ℕ
  tradeCounter : ℕ
deriving Repr, DecidableEq

/-- `SimulatedExchange._check_fill`: the fill decision and price for one
order against one bar.  `price_prec` falls back to the bar's open price
precision when the instrument is unknown.  The price/trigger fields are
present on the variants that the source accesses them on. -/
def checkFill (instruments : List (InstrumentId × Instrument)) (o : Order) (b : Bar) :
    Option Price :=
  let pricePrec := match instFind instruments o.instrumentId with
    | some inst => inst.pricePrecision
    | none => b.openPx.precision
  match o.orderType with
  | .MARKET => some b.openPx
  | .LIMIT =>
    match o.price with
    | none => none
    | some limitPx =>
      if o.side = .BUY then
        if b.lowPx.value ≤ limitPx.value then
          some (mkPrice (qmin limitPx.value b.openPx.value) pricePrec)
        else none
      else
        if b.highPx.value ≥ limitPx.value then
          some (mkPrice (qmax limitPx.value b.openPx.value) pricePrec)
        else none
  | .STOP_MARKET =>
    match o.triggerPrice with
    | none => none
    | some triggerPx =>
      if o.side = .BUY then
        if b.highPx.value ≥ triggerPx.value then
          some (mkPrice (qmax triggerPx.value b.openPx.value) pricePrec)
        else none
      else
        if b.lowPx.value ≤ triggerPx.value then
          some (mkPrice (qmin triggerPx.value b.openPx.value) pricePrec)
        else none
  | .STOP_LIMIT =>
    match o.triggerPrice, o.price with
    | some triggerPx, some limitPx =>
      if o.side = .BUY then
        if b.highPx.value ≥ triggerPx.value then
          if b.lowPx.value ≤ limitPx.value then
            some (mkPrice (qmin limitPx.value (qmax triggerPx.value b.openPx.value)) pricePrec)
          else none
        else none
      else
        if b.lowPx.value ≤ triggerPx.value then
          if b.highPx.value ≥ limitPx.value then
            some (mkPrice (qmax limitPx.value (qmin triggerPx.value b.openPx.value)) pricePrec)
          else none
        else none
    | _, _ => none

/-- `SimulatedExchange._fill_order` up to and including the account
update: emits the `OrderFilled` event for the whole `leaves_qty`, debits
(buys) or credits (sells) the free balance by the notional adjusted by
the taker commission, and accrues the commission. -/
def fillOrder (ex : ExchangeState) (o : Order) (fillPx : Price) (ts : ℤ) :
    ExchangeState × OrderFilledEv :=
  let rate := match instFind ex.instruments o.instrumentId with
    | some inst => inst.takerFee
    | none => 0
  let fillQty := o.leavesQty
  let notional := dMul fillQty.value fillPx.value
  let commissionAmount := dMul notional rate
  let ev : OrderFilledEv :=
    { clientOrderId := o.clientOrderId, orderSide := o.side, lastQty := fillQty,
      lastPx := fillPx,
      commission := some (ex.baseCurrency, quantizeHalfUp ex.currencyPrecision commissionAmount),
      tsEvent := ts }
  let newBalance := if o.side = .BUY then
      dSub ex.balance (dAdd notional commissionAmount)
    else
      dAdd ex.balance (dSub notional commissionAmount)
  let ex' := { ex with
    tradeCounter := ex.tradeCounter + 1
    balance := quantizeHalfUp ex.currencyPrecision newBalance
    commissions := dAdd ex.commissions commissionAmount }
  (ex', ev)

/-- The venue-facing `OrderEvent` carried by an `OrderFilled`
(`venue_order_id` is taken from the order being filled). -/
def OrderFilledEv.toOrderEvent (ev : OrderFilledEv) (vid : Option ℕ) : OrderEvent :=
  .filled ev.lastQty ev.lastPx vid ev.tsEvent

/-! ## Risk engine (risk_engine.py) -/

/-- The reasons `RiskEngine.validate_order` can deny an order, one per
`OrderDenied` reason string. -/
inductive DenialReason
  | halted
  | noInstrument
  | qtyPrecision (got expected : ℕ)
  | qtyBelowMin
  | qtyAboveMax
  | priceNotPositive
  | pricePrecision (got expected : ℕ)
  | reducingOnly
deriving Repr, DecidableEq

/-- Whether the denial reason's message mentions precision. -/
def DenialReason.mentionsPrecision : DenialReason → Bool
  | .qtyPrecision _ _ => true
  | .pricePrecision _ _ => true
  | _ => false

/-- `TradingState`. -/
inductive TradingState
  | ACTIVE
  | REDUCING
  | HALTED
deriving Repr, DecidableEq

/-- `Portfolio.net_position`: the sum of `signed_qty` over the open
positions for the instrument (exact decimal additions of a running
total starting from zero, each context-rounded). -/
def netPosition (c : CacheState) (iid : InstrumentId) : ℚ :=
  (c.positionsOpen (some iid)).foldl (fun acc p => dAdd acc p.signedQty) 0

/-- `RiskEngine.validate_order`: the pre-trade checks, in source order;
the first failing rule produces the denial. -/
def validateOrder (tradingState : TradingState) (c : CacheState) (o : Order) :
    Option DenialReason :=
  if tradingState = .HALTED then some .halted
  else match c.instrument o.instrumentId with
    | none => some .noInstrument
    | some inst =>
      if o.quantity.precision ≠ inst.sizePrecision then
        some (.qtyPrecision o.quantity.precision inst.sizePrecision)
      else if (match inst.minQuantity with
          | some mq => decide (0 < mq.value) && decide (o.quantity.value < mq.value)
          | none => false) then some .qtyBelowMin
      else if (match inst.maxQuantity with
          | some mq => decide (0 < mq.value) && decide (mq.value < o.quantity.value)
          | none => false) then some .qtyAboveMax
      else if (match o.price with
          | some px => decide (px.value ≤ 0)
          | none => false) then some .priceNotPositive
      else if (match o.price with
          | some px => decide (px.precision ≠ inst.pricePrecision)
          | none => false) then
        some (.pricePrecision (match o.price with | some px => px.precision | none => 0)
          inst.pricePrecision)
      else if tradingState = .REDUCING ∧
          ((o.side = .BUY ∧ 0 ≤ netPosition c o.instrumentId) ∨
           (o.side = .SELL ∧ netPosition c o.instrumentId ≤ 0)) then
        some .reducingOnly
      else none

/-! ## Execution engine and backtest driver (execution_engine.py, backtest/engine.py) -/

/-- The whole backtest state for a single-venue setup: the exchange
(with its account), the cache, the risk engine's trading state and the
execution engine's position counter. -/
structure BtState where
  ex : ExchangeState
  cache : CacheState
  tradingState : TradingState
  positionCounter : ℕ
deriving Repr, DecidableEq

/-- `ExecutionEngine._handle_fill`: apply the fill to the cached order,
then run the position flow.  Fills generated by the simulated exchange
never carry a `position_id`, so the netting branch and the hedging
fallback behave identically: apply to the first open position for the
instrument, or open a new one. -/
def handleFill (st : BtState) (ev : OrderFilledEv) : Except ApplyError BtState :=
  match st.cache.order ev.clientOrderId with
  | none => .ok st
  | some o =>
    match applyOrder o (ev.toOrderEvent o.venueOrderId) with
    | (_, some err) => .error err
    | (o', none) =>
      let c1 := st.cache.updateOrder o'
      match c1.positionsOpen (some o.instrumentId) with
      | p :: _ =>
        let p' := positionApplyFill p ev
        .ok { st with cache := c1.updatePosition p' }
      | [] =>
        let pid := st.positionCounter + 1
        let p := mkPosition o.instrumentId pid o.strategyId ev
        .ok { st with
          positionCounter := pid
          cache := c1.addPosition p }

/-- `SimulatedExchange.process_bar` on the driver's state: every open
order for the bar's instrument is checked against the bar; a fill is
routed through the execution engine; filled and closed orders are
dropped from the open list.  Returns the emitted fill events. -/
def btProcessBar (st : BtState) (b : Bar) : Except ApplyError (BtState × List OrderFilledEv) :=
  go st st.ex.openOrders [] []
where
  go (st : BtState) : List ℕ → List ℕ → List OrderFilledEv →
      Except ApplyError (BtState × List OrderFilledEv)
  | [], kept, evs =>
    .ok ({ st with ex := { st.ex with openOrders := kept.reverse } }, evs.reverse)
  | cid :: rest, kept, evs =>
    match st.cache.order cid with
    | none => go st rest (cid :: kept) evs
    | some o =>
      if o.instrumentId ≠ b.barType.instrumentId then go st rest (cid :: kept) evs
      else if ¬o.isOpen then go st rest kept evs
      else
        match checkFill st.ex.instruments o b with
        | none => go st rest (cid :: kept) evs
        | some px =>
          let (ex', ev) := fillOrder st.ex o px b.tsEvent
          match handleFill { st with ex := ex' } ev with
          | .error e => .error e
          | .ok st' => go st' rest kept (ev :: evs)

/-- `SimulatedExchange.process_order`: accept the order (routing the
`OrderAccepted` through the execution engine back onto the cached
order), then rest it on the open-order list — market orders included,
deferred to the next bar. -/
def processOrder (st : BtState) (cid : ℕ) : Except ApplyError BtState :=
  let vid := st.ex.venueOrderCounter + 1
  let st1 := { st with ex := { st.ex with venueOrderCounter := vid } }
  -- _handle_order_event for the OrderAccepted
  match st1.cache.order cid with
  | none => .ok { st1 with ex := { st1.ex with openOrders := st1.ex.openOrders ++ [cid] } }
  | some o =>
    match applyOrder o (.accepted (some vid) o.tsInit) with
    | (_, some err) => .error err
    | (o', none) =>
      .ok { st1 with
        cache := st1.cache.updateOrder o'
        ex := { st1.ex with openOrders := st1.ex.openOrders ++ [cid] } }

/-- `ExecutionEngine.submit_order`: risk-gate, then either record the
denial (primary cache map only) or apply `OrderSubmitted`, add the order
to the cache and route it to the venue's exchange. -/
def submitOrder (st : BtState) (o : Order) : Except ApplyError BtState :=
  match validateOrder st.tradingState st.cache o with
  | some _ =>
    match applyOrder o (.denied 0) with
    | (_, some err) => .error err
    | (o', none) => .ok { st with cache := st.cache.updateOrder o' }
  | none =>
    match applyOrder o (.submitted o.tsInit) with
    | (_, some err) => .error err
    | (o', none) =>
      let st1 := { st with cache := st.cache.addOrder o' }
      if o.instrumentId.venue = st.ex.venue then processOrder st1 o'.clientOrderId
      else .ok st1

/-- A datum of the heterogeneous backtest data stream. -/
inductive Datum
  | bar (b : Bar)
  | quote (iid : InstrumentId) (ts : ℤ)
  | trade (iid : InstrumentId) (ts : ℤ)
deriving Repr, DecidableEq

/-- The `ts_event` of a datum. -/
def Datum.ts : Datum → ℤ
  | .bar b => b.tsEvent
  | .quote _ t => t
  | .trade _ t => t

/-- Whether a datum is a bar. -/
def Datum.isBar : Datum → Bool
  | .bar _ => true
  | _ => false

/-- `BacktestEngine._get_total_balance`: fold the per-exchange base
currency totals into a running decimal sum starting at zero. -/
def totalBalance (st : BtState) : ℚ := dAdd 0 st.ex.balance

/-- One iteration of the driver's event loop for a bar: the exchange for
the bar's venue (if registered) matches resting orders, then the data
engine publishes the bar and the strategies submit their new orders —
modelled by the function `strat` from the bar to the submitted orders.
Quote and trade ticks are published without touching the engine state
(the modelled strategies trade on bars only). -/
def engineStepBar (st : BtState) (b : Bar) (strat : Bar → List Order) :
    Except ApplyError BtState :=
  let route : Except ApplyError BtState :=
    if b.barType.instrumentId.venue = st.ex.venue then
      match btProcessBar st b with
      | .error e => .error e
      | .ok (st', _) => .ok st'
    else .ok st
  match route with
  | .error e => .error e
  | .ok st1 =>
    (strat b).foldlM (fun acc o => submitOrder acc o) st1

/-- The event loop of `BacktestEngine.run`, producing the final state
and the balance-curve entries appended inside the loop (one per bar,
none for ticks). -/
def runLoop (strat : Bar → List Order) :
    BtState → List Datum → Except ApplyError (BtState × List (ℤ × ℚ))
  | st, [] => .ok (st, [])
  | st, d :: rest =>
    match d with
    | .bar b =>
      match engineStepBar st b strat with
      | .error e => .error e
      | .ok st' =>
        match runLoop strat st' rest with
        | .error e => .error e
        | .ok (stF, curve) => .ok (stF, (b.tsEvent, totalBalance st') :: curve)
    | .quote _ _ => runLoop strat st rest
    | .trade _ _ => runLoop strat st rest

/-- Stable insertion into a list sorted by `ts`: the new datum goes
after every element with an equal or smaller timestamp. -/
def insertByTs (d : Datum) : List Datum → List Datum
  | [] => [d]
  | x :: xs => if x.ts ≤ d.ts then x :: insertByTs d xs else d :: x :: xs

/-- Stable sort by `ts_event` (Python `list.sort(key=ts_event)`). -/
def sortByTs (l : List Datum) : List Datum :=
  l.foldl (fun acc d => insertByTs d acc) []

/-- The sort-and-filter preamble of `BacktestEngine.run`: stable sort by
`ts_event`, then the optional `[start, end]` range filter. -/
def processedData (data : List Datum) (start? end? : Option ℤ) : List Datum :=
  let sorted := sortByTs data
  let d1 := match start? with
    | some s => sorted.filter (fun d => s ≤ d.ts)
    | none => sorted
  match end? with
  | some e => d1.filter (fun d => d.ts ≤ e)
  | none => d1

/-- `BacktestEngine.run`: sort and filter the data, record the starting
balance against the first datum's timestamp, then run the loop,
returning the final state and the full balance curve. -/
def runBacktest (st : BtState) (data : List Datum) (start? end? : Option ℤ)
    (strat : Bar → List Order) : Except ApplyError (BtState × List (ℤ × ℚ)) :=
  let pd := processedData data start? end?
  let startBal := totalBalance st
  match runLoop strat st pd with
  | .error e => .error e
  | .ok (stF, curve) =>
    match pd with
    | [] => .ok (stF, curve)
    | d :: _ => .ok (stF, (d.ts, startBal) :: curve)

/-! ## Claim C4: the fill-decision table -/

/-- Modelled from the spec: the fill predicate of the table in §4.2 for
LIMIT orders — BUY: `L ≤ limit`; SELL: `H ≥ limit`. -/
def specLimitPred (side : OrderSide) (limit : Price) (b : Bar) : Prop :=
  match side with
  | .BUY => b.lowPx.value ≤ limit.value
  | .SELL => b.highPx.value ≥ limit.value

/-- Modelled from the spec: the fill price of the table in §4.2 for
LIMIT orders — BUY: `min(limit, O)`; SELL: `max(limit, O)`. -/
def specLimitPx (side : OrderSide) (limit : Price) (b : Bar) : ℚ :=
  match side with
  | .BUY => min limit.value b.openPx.value
  | .SELL => max limit.value b.openPx.value

/-- Modelled from the spec: the fill predicate for STOP_MARKET orders —
BUY: `H ≥ trigger`; SELL: `L ≤ trigger`. -/
def specStopPred (side : OrderSide) (trigger : Price) (b : Bar) : Prop :=
  match side with
  | .BUY => b.highPx.value ≥ trigger.value
  | .SELL => b.lowPx.value ≤ trigger.value

/-- Modelled from the spec: the fill price for STOP_MARKET orders —
BUY: `max(trigger, O)`; SELL: `min(trigger, O)`. -/
def specStopPx (side : OrderSide) (trigger : Price) (b : Bar) : ℚ :=
  match side with
  | .BUY => max trigger.value b.openPx.value
  | .SELL => min trigger.value b.openPx.value

/-- Modelled from the spec: the fill predicate for STOP_LIMIT orders —
BUY: `H ≥ trigger ∧ L ≤ limit`; SELL: `L ≤ trigger ∧ H ≥ limit`. -/
def specStopLimitPred (side : OrderSide) (trigger limit : Price) (b : Bar) : Prop :=
  match side with
  | .BUY => b.highPx.value ≥ trigger.value ∧ b.lowPx.value ≤ limit.value
  | .SELL => b.lowPx.value ≤ trigger.value ∧ b.highPx.value ≥ limit.value

/-- Modelled from the spec: the fill price for STOP_LIMIT orders —
BUY: `min(limit, max(trigger, O))`; SELL: `max(limit, min(trigger, O))`. -/
def specStopLimitPx (side : OrderSide) (trigger limit : Price) (b : Bar) : ℚ :=
  match side with
  | .BUY => min limit.value (max trigger.value b.openPx.value)
  | .SELL => max limit.value (min trigger.value b.openPx.value)

instance (s : OrderSide) (l : Price) (b : Bar) : Decidable (specLimitPred s l b) := by
  unfold specLimitPred; cases s <;> exact inferInstance

instance (s : OrderSide) (t : Price) (b : Bar) : Decidable (specStopPred s t b) := by
  unfold specStopPred; cases s <;> exact inferInstance

instance (s : OrderSide) (t l : Price) (b : Bar) :
    Decidable (specStopLimitPred s t l b) := by
  unfold specStopLimitPred; cases s <;> exact inferInstance

/-- C4: for resting limit, stop-market and stop-limit orders the
matching engine fills exactly when the spec's predicate over the bar's
high/low holds, at the spec's fill price quantized to the instrument's
price precision, and the emitted fill always covers the whole remaining
quantity (`last_qty = leaves_qty`, no partial fills). -/
theorem C4_fill_rules (instruments : List (InstrumentId × Instrument))
    (o : Order) (b : Bar) (inst : Instrument)
    (hinst : instFind instruments o.instrumentId = some inst) :
    (∀ lp, o.orderType = .LIMIT → o.price = some lp →
      checkFill instruments o b =
        if specLimitPred o.side lp b then
          some (mkPrice (specLimitPx o.side lp b) inst.pricePrecision)
        else none) ∧
    (∀ tp, o.orderType = .STOP_MARKET → o.triggerPrice = some tp →
      checkFill instruments o b =
        if specStopPred o.side tp b then
          some (mkPrice (specStopPx o.side tp b) inst.pricePrecision)
        else none) ∧
    (∀ tp lp, o.orderType = .STOP_LIMIT → o.triggerPrice = some tp → o.price = some lp →
      checkFill instruments o b =
        if specStopLimitPred o.side tp lp b then
          some (mkPrice (specStopLimitPx o.side tp lp b) inst.pricePrecision)
        else none) ∧
    (∀ (ex : ExchangeState) (px : Price) (ts : ℤ),
      (fillOrder ex o px ts).2.lastQty = o.leavesQty ∧
      (fillOrder ex o px ts).2.lastPx = px) := by
  refine ⟨?_, ?_, ?_, fun ex px ts => ⟨rfl, rfl⟩⟩
  · intro lp ht hp
    cases hside : o.side
    · by_cases h1 : b.lowPx.value ≤ lp.value <;>
        simp [checkFill, hinst, ht, hp, hside, h1, specLimitPred, specLimitPx, qmin_eq]
    · by_cases h1 : b.highPx.value ≥ lp.value <;>
        simp [checkFill, hinst, ht, hp, hside, h1, specLimitPred, specLimitPx, qmax_eq]
  · intro tp ht hp
    cases hside : o.side
    · by_cases h1 : b.highPx.value ≥ tp.value <;>
        simp [checkFill, hinst, ht, hp, hside, h1, specStopPred, specStopPx, qmax_eq]
    · by_cases h1 : b.lowPx.value ≤ tp.value <;>
        simp [checkFill, hinst, ht, hp, hside, h1, specStopPred, specStopPx, qmin_eq]
  · intro tp lp ht htp hp
    cases hside : o.side
    · by_cases h1 : b.highPx.value ≥ tp.value <;> by_cases h2 : b.lowPx.value ≤ lp.value <;>
        simp [checkFill, hinst, ht, htp, hp, hside, h1, h2, specStopLimitPred,
          specStopLimitPx, qmin_eq, qmax_eq]
    · by_cases h1 : b.lowPx.value ≤ tp.value <;> by_cases h2 : b.highPx.value ≥ lp.value <;>
        simp [checkFill, hinst, ht, htp, hp, hside, h1, h2, specStopLimitPred,
          specStopLimitPx, qmin_eq, qmax_eq]

/-- Witness for C4: a STOP_LIMIT BUY with trigger 105 and limit 103 on a
bar `O=104, H=106, L=102` fills at `min(103, max(105, 104)) = 103`. -/
theorem C4_witness :
    checkFill [(⟨1, 1⟩, ⟨⟨1, 1⟩, 2, 0, 0, none, none⟩)]
      (mkOrder 1 ⟨1, 1⟩ 1 .BUY .STOP_LIMIT ⟨10, 0⟩ (some ⟨103, 2⟩) (some ⟨105, 2⟩) 0)
      ⟨⟨⟨1, 1⟩⟩, ⟨104, 2⟩, ⟨106, 2⟩, ⟨102, 2⟩, ⟨105, 2⟩, ⟨1000, 0⟩, 0⟩ =
      some (mkPrice (specStopLimitPx .BUY ⟨105, 2⟩ ⟨103, 2⟩
        ⟨⟨⟨1, 1⟩⟩, ⟨104, 2⟩, ⟨106, 2⟩, ⟨102, 2⟩, ⟨105, 2⟩, ⟨1000, 0⟩, 0⟩) 2) := by
  have h := (C4_fill_rules [(⟨1, 1⟩, ⟨⟨1, 1⟩, 2, 0, 0, none, none⟩)]
    (mkOrder 1 ⟨1, 1⟩ 1 .BUY .STOP_LIMIT ⟨10, 0⟩ (some ⟨103, 2⟩) (some ⟨105, 2⟩) 0)
    ⟨⟨⟨1, 1⟩⟩, ⟨104, 2⟩, ⟨106, 2⟩, ⟨102, 2⟩, ⟨105, 2⟩, ⟨1000, 0⟩, 0⟩
    ⟨⟨1, 1⟩, 2, 0, 0, none, none⟩ (by decide)).2.2.1 ⟨105, 2⟩ ⟨103, 2⟩ rfl rfl rfl
  rw [h, if_pos (by constructor <;> norm_num [specStopLimitPred])]
  rfl

/-! ## Association-list lemmas for the cache proofs -/

theorem assocFind_cons {α : Type} [DecidableEq α] {β : Type} (kv : α × β)
    (l : List (α × β)) (k : α) :
    assocFind (kv :: l) k = if kv.1 = k then some kv.2 else assocFind l k := by
  by_cases h : kv.1 = k <;> simp [assocFind, List.find?_cons, h]

theorem assocFind_put_self {α : Type} [DecidableEq α] {β : Type}
    (l : List (α × β)) (k : α) (v : β) :
    assocFind (assocPut l k v) k = some v := by
  induction l with
  | nil => simp [assocPut, assocFind, List.find?_cons]
  | cons kv rest ih =>
    by_cases h : kv.1 = k
    · simp only [assocPut, if_pos h]
      rw [assocFind_cons]
      simp
    · simp only [assocPut, if_neg h]
      rw [assocFind_cons, if_neg h]
      exact ih

theorem assocFind_put_ne {α : Type} [DecidableEq α] {β : Type}
    (l : List (α × β)) (k k' : α) (v : β) (h : k' ≠ k) :
    assocFind (assocPut l k v) k' = assocFind l k' := by
  induction l with
  | nil =>
    simp only [assocPut]
    rw [assocFind_cons, if_neg (fun hx : k = k' => h hx.symm)]
  | cons kv rest ih =>
    simp only [assocPut]
    by_cases hh : kv.1 = k
    · rw [if_pos hh, assocFind_cons, assocFind_cons,
        if_neg (fun hx : k = k' => h hx.symm),
        if_neg (fun hx : kv.1 = k' => h (hx.symm.trans hh))]
    · rw [if_neg hh, assocFind_cons, assocFind_cons]
      by_cases h2 : kv.1 = k'
      · rw [if_pos h2, if_pos h2]
      · rw [if_neg h2, if_neg h2]
        exact ih

theorem assocPut_fresh {α : Type} [DecidableEq α] {β : Type}
    (l : List (α × β)) (k : α) (v : β) (h : assocFind l k = none) :
    assocPut l k v = l ++ [(k, v)] := by
  induction l with
  | nil => rfl
  | cons kv rest ih =>
    rw [assocFind_cons] at h
    by_cases hh : kv.1 = k
    · rw [if_pos hh] at h
      exact absurd h (by simp)
    · rw [if_neg hh] at h
      simp only [assocPut, if_neg hh, List.cons_append]
      rw [ih h]

theorem assocFind_mem {α : Type} [DecidableEq α] {β : Type} {l : List (α × β)}
    {k : α} {v : β} (h : assocFind l k = some v) : (k, v) ∈ l := by
  induction l with
  | nil => exact absurd h (by simp [assocFind, List.find?])
  | cons kv rest ih =>
    rw [assocFind_cons] at h
    by_cases hh : kv.1 = k
    · rw [if_pos hh] at h
      rw [List.mem_cons]
      left
      obtain ⟨a, b⟩ := kv
      simp only [Option.some.injEq] at h
      rw [Prod.mk.injEq]
      exact ⟨hh.symm, h.symm⟩
    · rw [if_neg hh] at h
      exact List.mem_cons_of_mem _ (ih h)

/-- The cache's primary order map keys every order by its own client
order id (maintained by `add_order`/`update_order`, which always use
`order.client_order_id` as the key). -/
def cacheWF (c : CacheState) : Prop :=
  ∀ kv ∈ c.orders, kv.2.clientOrderId = kv.1

/-! ## Claim C7: risk denial on a quantity-precision mismatch -/

/-- C7: an order whose quantity precision differs from the instrument's
size precision is denied by the risk gate with a reason that mentions
precision; the order's status becomes DENIED in the cache, the exchange
is never touched (no routing, so the account balance cannot change) and
no position is created. -/
theorem C7_precision_denial (st : BtState) (o : Order) (inst : Instrument)
    (hhalt : st.tradingState ≠ .HALTED)
    (hinst : st.cache.instrument o.instrumentId = some inst)
    (hprec : o.quantity.precision ≠ inst.sizePrecision)
    (hstatus : o.status = .INITIALIZED) :
    ∃ r st', validateOrder st.tradingState st.cache o = some r ∧
      r.mentionsPrecision = true ∧
      submitOrder st o = .ok st' ∧
      (∃ o', st'.cache.order o.clientOrderId = some o' ∧ o'.status = .DENIED) ∧
      st'.ex = st.ex ∧
      st'.cache.positions = st.cache.positions ∧
      st'.cache.ordersByVenue = st.cache.ordersByVenue ∧
      st'.cache.ordersByStrategy = st.cache.ordersByStrategy ∧
      st'.cache.ordersByInstrument = st.cache.ordersByInstrument := by
  have hval : validateOrder st.tradingState st.cache o
      = some (.qtyPrecision o.quantity.precision inst.sizePrecision) := by
    simp only [validateOrder, if_neg hhalt, hinst, ne_eq]
    rw [if_pos hprec]
  have hd : (OrderEvent.denied 0).targetStatus ∈ allowedTransitions o.status := by
    rw [hstatus]; decide
  cases hap : applyOrder o (.denied 0) with
  | mk o' err =>
    have h := applyStatus_ok (o := o) (e := .denied 0) rfl hd
    rw [hap] at h
    have herr : err = none := h.1
    subst herr
    have hcid : o'.clientOrderId = o.clientOrderId := h.2.2.2.2.2.2.2.2.1
    refine ⟨.qtyPrecision o.quantity.precision inst.sizePrecision,
      { st with cache := st.cache.updateOrder o' }, hval, rfl, ?_, ⟨o', ?_, ?_⟩,
      rfl, rfl, rfl, rfl, rfl⟩
    · simp only [submitOrder, hval, hap]
    · show assocFind (assocPut st.cache.orders o'.clientOrderId o') o.clientOrderId = some o'
      rw [hcid]
      exact assocFind_put_self _ _ _
    · exact h.2.1

/-- Shared concrete state for the engine-level witnesses: one registered
instrument with size precision 0 and price precision 2, an empty cache
and a 100000-balance account. -/
def wInst : Instrument := ⟨⟨1, 1⟩, 2, 0, 0, none, none⟩

def wCache : CacheState := ⟨[(⟨1, 1⟩, wInst)], [], [], [], [], [], [], [], []⟩

def wEx : ExchangeState := ⟨1, 0, 2, [(⟨1, 1⟩, wInst)], [], 100000, 0, 0, 0⟩

def wSt : BtState := ⟨wEx, wCache, .ACTIVE, 0⟩

/-- A market order whose quantity precision (2) differs from the
instrument's size precision (0). -/
def wOrdBadPrec : Order := mkOrder 7 ⟨1, 1⟩ 1 .BUY .MARKET ⟨100, 2⟩ none none 0

/-- Witness for C7 at the concrete state. -/
theorem C7_witness :
    ∃ r st', validateOrder wSt.tradingState wSt.cache wOrdBadPrec = some r ∧
      r.mentionsPrecision = true ∧
      submitOrder wSt wOrdBadPrec = .ok st' ∧
      (∃ o', st'.cache.order wOrdBadPrec.clientOrderId = some o' ∧ o'.status = .DENIED) ∧
      st'.ex = wSt.ex ∧
      st'.cache.positions = wSt.cache.positions ∧
      st'.cache.ordersByVenue = wSt.cache.ordersByVenue ∧
      st'.cache.ordersByStrategy = wSt.cache.ordersByStrategy ∧
      st'.cache.ordersByInstrument = wSt.cache.ordersByInstrument :=
  C7_precision_denial wSt wOrdBadPrec wInst (by decide) (by decide) (by decide)
    (by decide)

/-! ## Claim C9: a denied order is cached but invisible to the indexed queries -/

/-- C9: after a risk denial, the denied order is stored in the cache's
primary map — returned by `cache.order` and included (and counted) in
the unfiltered `cache.orders()` — but the instrument-, strategy- and
venue-indexed queries never return it, because the denial path uses
`update_order`, which does not populate the secondary indices. -/
theorem C9_denied_order_visibility (st : BtState) (o : Order) (r : DenialReason)
    (hwf : cacheWF st.cache)
    (hval : validateOrder st.tradingState st.cache o = some r)
    (hstatus : o.status = .INITIALIZED)
    (hfresh : st.cache.order o.clientOrderId = none)
    (hidxI : o.clientOrderId ∉ (assocFind st.cache.ordersByInstrument o.instrumentId).getD [])
    (hidxS : o.clientOrderId ∉ (assocFind st.cache.ordersByStrategy o.strategyId).getD [])
    (hidxV : o.clientOrderId ∉
      (assocFind st.cache.ordersByVenue o.instrumentId.venue).getD []) :
    ∃ st' o', submitOrder st o = .ok st' ∧
      st'.cache.order o.clientOrderId = some o' ∧ o'.status = .DENIED ∧
      o' ∈ st'.cache.ordersQ none none ∧
      (st'.cache.ordersQ none none).length = st.cache.orders.length + 1 ∧
      (∀ x ∈ st'.cache.ordersQ (some o.instrumentId) none,
        x.clientOrderId ≠ o.clientOrderId) ∧
      (∀ x ∈ st'.cache.ordersQ none (some o.strategyId),
        x.clientOrderId ≠ o.clientOrderId) ∧
      (∀ x ∈ st'.cache.ordersForVenue o.instrumentId.venue,
        x.clientOrderId ≠ o.clientOrderId) := by
  have hd : (OrderEvent.denied 0).targetStatus ∈ allowedTransitions o.status := by
    rw [hstatus]; decide
  cases hap : applyOrder o (.denied 0) with
  | mk o' err =>
    have h := applyStatus_ok (o := o) (e := .denied 0) rfl hd
    rw [hap] at h
    have herr : err = none := h.1
    subst herr
    have hcid : o'.clientOrderId = o.clientOrderId := h.2.2.2.2.2.2.2.2.1
    refine ⟨{ st with cache := st.cache.updateOrder o' }, o', ?_, ?_, h.2.1, ?_, ?_,
      ?_, ?_, ?_⟩
    · simp only [submitOrder, hval, hap]
    · show assocFind (assocPut st.cache.orders o'.clientOrderId o') o.clientOrderId = some o'
      rw [hcid]
      exact assocFind_put_self _ _ _
    · show o' ∈ (assocPut st.cache.orders o'.clientOrderId o').map (fun kv => kv.2)
      rw [hcid, assocPut_fresh _ _ _ hfresh]
      simp
    · show ((assocPut st.cache.orders o'.clientOrderId o').map (fun kv => kv.2)).length
        = st.cache.orders.length + 1
      rw [hcid, assocPut_fresh _ _ _ hfresh]
      simp
    · intro x hx
      have hx2 : x ∈ ((assocFind st.cache.ordersByInstrument o.instrumentId).getD
          []).filterMap (fun cid =>
            assocFind (assocPut st.cache.orders o'.clientOrderId o') cid) := hx
      rw [List.mem_filterMap] at hx2
      obtain ⟨cid, hcmem, hlook⟩ := hx2
      have hne : cid ≠ o.clientOrderId := fun he => hidxI (he ▸ hcmem)
      rw [assocFind_put_ne _ _ _ _ (by rw [hcid]; exact hne)] at hlook
      have hx3 : x.clientOrderId = cid := hwf (cid, x) (assocFind_mem hlook)
      intro hcontra
      exact hne (hx3.symm.trans hcontra)
    · intro x hx
      have hx2 : x ∈ ((assocFind st.cache.ordersByStrategy o.strategyId).getD
          []).filterMap (fun cid =>
            assocFind (assocPut st.cache.orders o'.clientOrderId o') cid) := hx
      rw [List.mem_filterMap] at hx2
      obtain ⟨cid, hcmem, hlook⟩ := hx2
      have hne : cid ≠ o.clientOrderId := fun he => hidxS (he ▸ hcmem)
      rw [assocFind_put_ne _ _ _ _ (by rw [hcid]; exact hne)] at hlook
      have hx3 : x.clientOrderId = cid := hwf (cid, x) (assocFind_mem hlook)
      intro hcontra
      exact hne (hx3.symm.trans hcontra)
    · intro x hx
      have hx2 : x ∈ ((assocFind st.cache.ordersByVenue o.instrumentId.venue).getD
          []).filterMap (fun cid =>
            assocFind (assocPut st.cache.orders o'.clientOrderId o') cid) := hx
      rw [List.mem_filterMap] at hx2
      obtain ⟨cid, hcmem, hlook⟩ := hx2
      have hne : cid ≠ o.clientOrderId := fun he => hidxV (he ▸ hcmem)
      rw [assocFind_put_ne _ _ _ _ (by rw [hcid]; exact hne)] at hlook
      have hx3 : x.clientOrderId = cid := hwf (cid, x) (assocFind_mem hlook)
      intro hcontra
      exact hne (hx3.symm.trans hcontra)

/-- Witness for C9 at the concrete state (denial by quantity-precision
mismatch on an empty cache). -/
theorem C9_witness :
    ∃ st' o', submitOrder wSt wOrdBadPrec = .ok st' ∧
      st'.cache.order wOrdBadPrec.clientOrderId = some o' ∧ o'.status = .DENIED ∧
      o' ∈ st'.cache.ordersQ none none ∧
      (st'.cache.ordersQ none none).length = wSt.cache.orders.length + 1 ∧
      (∀ x ∈ st'.cache.ordersQ (some wOrdBadPrec.instrumentId) none,
        x.clientOrderId ≠ wOrdBadPrec.clientOrderId) ∧
      (∀ x ∈ st'.cache.ordersQ none (some wOrdBadPrec.strategyId),
        x.clientOrderId ≠ wOrdBadPrec.clientOrderId) ∧
      (∀ x ∈ st'.cache.ordersForVenue wOrdBadPrec.instrumentId.venue,
        x.clientOrderId ≠ wOrdBadPrec.clientOrderId) :=
  C9_denied_order_visibility wSt wOrdBadPrec (.qtyPrecision 2 0)
    (by intro kv hkv; cases hkv) (by decide) (by decide) (by decide) (by decide)
    (by decide) (by decide)

/-! ## Claim C10: the shape of the balance curve -/

/-- The loop of `run` appends exactly one balance entry per bar and none
for quote or trade ticks. -/
theorem runLoop_length (strat : Bar → List Order) :
    ∀ (ds : List Datum) (st stF : BtState) (curve : List (ℤ × ℚ)),
      runLoop strat st ds = .ok (stF, curve) →
      curve.length = (ds.filter (fun d => d.isBar)).length := by
  intro ds
  induction ds with
  | nil =>
    intro st stF curve h
    simp only [runLoop, Except.ok.injEq, Prod.mk.injEq] at h
    rw [← h.2]
    rfl
  | cons d rest ih =>
    intro st stF curve h
    cases d with
    | bar b =>
      simp only [runLoop] at h
      cases heb : engineStepBar st b strat with
      | error err => rw [heb] at h; simp at h
      | ok st1 =>
        simp only [heb] at h
        cases hrl : runLoop strat st1 rest with
        | error err => simp only [hrl] at h; simp at h
        | ok p =>
          obtain ⟨stF', curve'⟩ := p
          simp only [hrl] at h
          simp only [Except.ok.injEq, Prod.mk.injEq] at h
          rw [← h.2, List.filter_cons_of_pos rfl]
          simp only [List.length_cons]
          rw [ih st1 stF' curve' hrl]
    | quote i t =>
      simp only [runLoop] at h
      rw [ih st stF curve h, List.filter_cons_of_neg (by simp [Datum.isBar])]
    | trade i t =>
      simp only [runLoop] at h
      rw [ih st stF curve h, List.filter_cons_of_neg (by simp [Datum.isBar])]

/-- C10: when the first processed datum is a bar, the balance curve
starts with two entries carrying that bar's `ts_event` — the pre-loop
entry holding the starting balance and the post-bar entry holding the
total balance after that bar — and its total length is one more than
the number of processed bars (ticks never append an entry). -/
theorem C10_balance_curve (st : BtState) (data : List Datum) (s e : Option ℤ)
    (strat : Bar → List Order) (b : Bar) (rest : List Datum)
    (stF : BtState) (curve : List (ℤ × ℚ))
    (hpd : processedData data s e = .bar b :: rest)
    (hrun : runBacktest st data s e strat = .ok (stF, curve)) :
    ∃ st1, engineStepBar st b strat = .ok st1 ∧
      curve.take 2 = [(b.tsEvent, totalBalance st), (b.tsEvent, totalBalance st1)] ∧
      curve.length = 1 + ((processedData data s e).filter (fun d => d.isBar)).length := by
  simp only [runBacktest] at hrun
  rw [hpd] at hrun
  simp only [runLoop] at hrun
  cases heb : engineStepBar st b strat with
  | error err => rw [heb] at hrun; simp at hrun
  | ok st1 =>
    simp only [heb] at hrun
    cases hrl : runLoop strat st1 rest with
    | error err => simp only [hrl] at hrun; simp at hrun
    | ok p =>
      obtain ⟨stF', curve'⟩ := p
      simp only [hrl] at hrun
      simp only [Except.ok.injEq, Prod.mk.injEq, Datum.ts] at hrun
      obtain ⟨-, hcurve⟩ := hrun
      refine ⟨st1, rfl, ?_, ?_⟩
      · rw [← hcurve]
        rfl
      · rw [← hcurve, hpd]
        rw [List.filter_cons_of_pos rfl]
        simp only [List.length_cons]
        rw [runLoop_length strat rest st1 stF' curve' hrl]
        omega

/-- An empty strategy and a two-datum stream (one bar at ts 0, one quote
tick at ts 5) for the C10 witness. -/
def stratNone : Bar → List Order := fun _ => []

def wBar : Bar := ⟨⟨⟨1, 1⟩⟩, ⟨100, 2⟩, ⟨101, 2⟩, ⟨99, 2⟩, ⟨100, 2⟩, ⟨1000, 0⟩, 0⟩

def wData : List Datum := [.bar wBar, .quote ⟨1, 1⟩ 5]

/-- Witness for C10: the concrete run produces the curve
`[(0, 100000), (0, 100000)]` — two entries for the bar, none for the
quote tick. -/
theorem C10_witness :
    ∃ st1, engineStepBar wSt wBar stratNone = .ok st1 ∧
      ([((0 : ℤ), (100000 : ℚ)), (0, 100000)]).take 2
        = [(wBar.tsEvent, totalBalance wSt), (wBar.tsEvent, totalBalance st1)] ∧
      ([((0 : ℤ), (100000 : ℚ)), (0, 100000)]).length
        = 1 + ((processedData wData none none).filter (fun d => d.isBar)).length :=
  C10_balance_curve wSt wData none none stratNone wBar [.quote ⟨1, 1⟩ 5] wSt
    [(0, 100000), (0, 100000)] (by decide) (by rfl)

/-! ## Claim C1: infrastructure — identity preservation and full fills -/

/-- `Order.apply` never changes the client order id, on success or
failure. -/
theorem applyOrder_id (o : Order) (e : OrderEvent) :
    (applyOrder o e).1.clientOrderId = o.clientOrderId := by
  cases e with
  | filled lq lpx vid ts =>
    show (applyFilled o lq lpx vid ts).1.clientOrderId = o.clientOrderId
    simp only [applyFilled]
    cases hm1 : mkQuantity (dAdd o.filledQty.value lq.value) o.quantity.precision with
    | none => rfl
    | some f' =>
      cases hm2 : mkQuantity (dSub o.quantity.value (dAdd o.filledQty.value lq.value))
          o.quantity.precision with
      | none => rfl
      | some l' =>
        try dsimp only
        by_cases htr : (if l'.value = 0 then OrderStatus.FILLED
            else OrderStatus.PARTIALLY_FILLED) ∈ allowedTransitions o.status
        · rw [if_pos htr]
          cases vid <;> rfl
        · rw [if_neg htr]
  | updated qty px trig ts =>
    show (applyUpdated o qty px trig ts).1.clientOrderId = o.clientOrderId
    cases qty with
    | none =>
      simp only [applyUpdated]
      try dsimp only
      by_cases htr : OrderStatus.ACCEPTED ∈ allowedTransitions o.status
      · rw [if_pos htr]
        split <;> split <;> rfl
      · rw [if_neg htr]
    | some nq =>
      simp only [applyUpdated]
      cases hm : mkQuantity (dSub nq.value o.filledQty.value) nq.precision with
      | none => rfl
      | some lv =>
        try dsimp only
        by_cases htr : OrderStatus.ACCEPTED ∈ allowedTransitions o.status
        · rw [if_pos htr]
          split <;> split <;> rfl
        · rw [if_neg htr]
  | initializedEv ts => simp only [applyOrder]; split <;> rfl
  | denied ts => simp only [applyOrder]; split <;> rfl
  | submitted ts => simp only [applyOrder]; split <;> rfl
  | accepted vid ts => cases vid <;> (simp only [applyOrder]; split <;> rfl)
  | rejected ts => simp only [applyOrder]; split <;> rfl
  | canceled ts => simp only [applyOrder]; split <;> rfl
  | expired ts => simp only [applyOrder]; split <;> rfl

theorem roundHalfUp_zero : roundHalfUp 0 = 0 := by decide

theorem quantizeHalfUp_zero (p : ℕ) : quantizeHalfUp p 0 = 0 := by
  have h : qMul 0 (tenPow p) = 0 := by rw [qMul_eq]; exact zero_mul _
  simp only [quantizeHalfUp, h, roundHalfUp_zero]
  simp [Rat.mkRat_eq_div]

/-- A fill for the whole `leaves_qty` of a factory-fresh accepted order
(no prior fills, quantity exactly representable) succeeds and closes the
order as FILLED with `filled_qty = quantity`. -/
theorem applyFilled_full (o : Order) (lpx : Price) (vid : Option ℕ) (ts : ℤ)
    (hstatus : o.status = .ACCEPTED)
    (hf0 : o.filledQty.value = 0)
    (hlv : o.leavesQty.value = o.quantity.value)
    (hrq : ctxRound o.quantity.value = o.quantity.value)
    (hqz : quantizeHalfUp o.quantity.precision o.quantity.value = o.quantity.value)
    (hq0 : 0 ≤ o.quantity.value) :
    ∃ o', applyFilled o o.leavesQty lpx vid ts = (o', none) ∧
      o'.status = .FILLED ∧ o'.filledQty.value = o.quantity.value ∧
      o'.clientOrderId = o.clientOrderId := by
  have hnf : dAdd o.filledQty.value o.leavesQty.value = o.quantity.value := by
    rw [dAdd_eq_ctx, hf0, hlv, zero_add, hrq]
  have hm1 : mkQuantity o.quantity.value o.quantity.precision
      = some ⟨o.quantity.value, o.quantity.precision⟩ := by
    have h := mkQuantity_of_quantize_nonneg (v := o.quantity.value)
      (p := o.quantity.precision) (by rw [hqz]; exact hq0)
    rw [hqz] at h
    exact h
  have hsub : dSub o.quantity.value o.quantity.value = 0 := by
    rw [dSub_eq_ctx, sub_self, ctxRound_zero]
  have hm2 : mkQuantity (dSub o.quantity.value o.quantity.value) o.quantity.precision
      = some ⟨0, o.quantity.precision⟩ := by
    rw [hsub]
    have h := mkQuantity_of_quantize_nonneg (v := (0 : ℚ)) (p := o.quantity.precision)
      (by rw [quantizeHalfUp_zero])
    rw [quantizeHalfUp_zero] at h
    exact h
  have hz0 : (⟨0, o.quantity.precision⟩ : Quantity).value = 0 := rfl
  cases vid with
  | none =>
    simp only [applyFilled, hnf, hm1, hm2, hz0, if_pos, hstatus]
    rw [if_pos (by decide)]
    exact ⟨_, rfl, rfl, rfl, rfl⟩
  | some v =>
    simp only [applyFilled, hnf, hm1, hm2, hz0, if_pos, hstatus]
    rw [if_pos (by decide)]
    exact ⟨_, rfl, rfl, rfl, rfl⟩

theorem assocPut_mem {α : Type} [DecidableEq α] {β : Type} {l : List (α × β)}
    {k : α} {v : β} {kv : α × β} (h : kv ∈ assocPut l k v) :
    kv = (k, v) ∨ kv ∈ l := by
  induction l with
  | nil =>
    simp only [assocPut] at h
    rcases List.mem_cons.mp h with h1 | h1
    · exact Or.inl h1
    · cases h1
  | cons kv0 rest ih =>
    simp only [assocPut] at h
    split at h
    · rcases List.mem_cons.mp h with h1 | h1
      · exact Or.inl h1
      · exact Or.inr (List.mem_cons_of_mem _ h1)
    · rcases List.mem_cons.mp h with h1 | h1
      · rw [h1]; exact Or.inr (List.mem_cons_self _ _)
      · rcases ih h1 with h2 | h2
        · exact Or.inl h2
        · exact Or.inr (List.mem_cons_of_mem _ h2)

theorem cacheWF_updateOrder {c : CacheState} (hwf : cacheWF c) (o : Order) :
    cacheWF (c.updateOrder o) := by
  intro kv hkv
  rcases assocPut_mem hkv with h1 | h1
  · rw [h1]
  · exact hwf kv h1

theorem cacheWF_addOrder {c : CacheState} (hwf : cacheWF c) (o : Order) :
    cacheWF (c.addOrder o) := by
  intro kv hkv
  rcases assocPut_mem (l := c.orders) hkv with h1 | h1
  · rw [h1]
  · exact hwf kv h1

/-- A market order always matches, at the bar's open price, unquantized. -/
theorem checkFill_market (instruments : List (InstrumentId × Instrument))
    (o : Order) (b : Bar) (ht : o.orderType = .MARKET) :
    checkFill instruments o b = some b.openPx := by
  simp only [checkFill, ht]

/-- Success shape of `_handle_fill` when the cached order applies the
fill cleanly: the exchange and trading state are untouched and the
primary order map gets the updated order under its own id. -/
theorem handleFill_found {st : BtState} {ev : OrderFilledEv} {o3 o3' : Order}
    (hlook : st.cache.order ev.clientOrderId = some o3)
    (hap : applyOrder o3 (ev.toOrderEvent o3.venueOrderId) = (o3', none)) :
    ∃ st', handleFill st ev = .ok st' ∧
      st'.ex = st.ex ∧ st'.tradingState = st.tradingState ∧
      st'.cache.orders = assocPut st.cache.orders o3'.clientOrderId o3' ∧
      st'.cache.instruments = st.cache.instruments := by
  simp only [handleFill, hlook, hap]
  cases hpos : (st.cache.updateOrder o3').positionsOpen (some o3.instrumentId) with
  | nil => exact ⟨_, rfl, rfl, rfl, rfl, rfl⟩
  | cons p ps => exact ⟨_, rfl, rfl, rfl, rfl, rfl⟩

/-- Frame of `_handle_fill` on success: the exchange and trading state
are untouched, well-formedness of the cache is preserved, and every
other order's cache entry is unchanged. -/
theorem handleFill_frame (st : BtState) {ev : OrderFilledEv} {st' : BtState}
    (hwf : cacheWF st.cache) (hh : handleFill st ev = .ok st') :
    st'.ex = st.ex ∧ st'.tradingState = st.tradingState ∧
    st'.cache.instruments = st.cache.instruments ∧
    cacheWF st'.cache ∧
    (∀ i, i ≠ ev.clientOrderId → st'.cache.order i = st.cache.order i) := by
  cases hlook : st.cache.order ev.clientOrderId with
  | none =>
    simp only [handleFill, hlook] at hh
    cases hh
    exact ⟨rfl, rfl, rfl, hwf, fun i _ => rfl⟩
  | some o3 =>
    cases hap : applyOrder o3 (ev.toOrderEvent o3.venueOrderId) with
    | mk o3' err =>
      cases err with
      | some e =>
        simp only [handleFill, hlook, hap] at hh
        exact Except.noConfusion hh
      | none =>
        obtain ⟨st'', heq, hex, hts, horders, hinsts⟩ := handleFill_found hlook hap
        rw [heq] at hh
        have hst : st'' = st' := Except.ok.inj hh
        subst hst
        have hid : o3'.clientOrderId = ev.clientOrderId := by
          have h1 := applyOrder_id o3 (ev.toOrderEvent o3.venueOrderId)
          rw [hap] at h1
          exact h1.trans (hwf _ (assocFind_mem hlook))
        refine ⟨hex, hts, hinsts, ?_, ?_⟩
        · intro kv hkv
          rw [horders] at hkv
          rcases assocPut_mem hkv with h1 | h1
          · rw [h1]
          · exact hwf kv h1
        · intro i hi
          show assocFind st''.cache.orders i = assocFind st.cache.orders i
          rw [horders]
          exact assocFind_put_ne _ _ _ _ (fun he => hi (he ▸ hid ▸ rfl))

/-- Under an ACTIVE trading state the risk checks read only the
instrument and the order (the reducing-only branch is dead). -/
theorem validateOrder_active (c : CacheState) (o : Order) :
    validateOrder .ACTIVE c o =
      match c.instrument o.instrumentId with
      | none => some .noInstrument
      | some inst =>
        if o.quantity.precision ≠ inst.sizePrecision then
          some (.qtyPrecision o.quantity.precision inst.sizePrecision)
        else if (match inst.minQuantity with
            | some mq => decide (0 < mq.value) && decide (o.quantity.value < mq.value)
            | none => false) then some .qtyBelowMin
        else if (match inst.maxQuantity with
            | some mq => decide (0 < mq.value) && decide (mq.value < o.quantity.value)
            | none => false) then some .qtyAboveMax
        else if (match o.price with
            | some px => decide (px.value ≤ 0)
            | none => false) then some .priceNotPositive
        else if (match o.price with
            | some px => decide (px.precision ≠ inst.pricePrecision)
            | none => false) then
          some (.pricePrecision (match o.price with | some px => px.precision | none => 0)
            inst.pricePrecision)
        else none := by
  simp only [validateOrder]
  rw [if_neg (by simp)]
  cases hc : c.instrument o.instrumentId with
  | none => rfl
  | some inst =>
    simp only [reduceCtorEq, false_and, if_false]

/-- The ACTIVE-state risk verdict depends on the cache only through its
instruments. -/
theorem validateOrder_active_congr (c c' : CacheState) (o : Order)
    (h : c.instruments = c'.instruments) :
    validateOrder .ACTIVE c o = validateOrder .ACTIVE c' o := by
  have hi : c.instrument o.instrumentId = c'.instrument o.instrumentId := by
    simp only [CacheState.instrument, h]
  rw [validateOrder_active, validateOrder_active, hi]

/-- The success path of `submit_order` on an INITIALIZED order that
passes the risk gate, for the registered venue: the order is submitted,
cached, accepted by the exchange (which assigns a venue order id) and
appended to the open-order list — market orders included. -/
theorem submitOrder_rests {st : BtState} {o : Order} {stB : BtState}
    (hwf : cacheWF st.cache)
    (hval : validateOrder st.tradingState st.cache o = none)
    (hstatus : o.status = .INITIALIZED)
    (hvenue : o.instrumentId.venue = st.ex.venue)
    (hsub : submitOrder st o = .ok stB) :
    ∃ oA, stB.cache.order o.clientOrderId = some oA ∧
      oA.status = .ACCEPTED ∧
      oA.clientOrderId = o.clientOrderId ∧
      oA.instrumentId = o.instrumentId ∧
      oA.orderType = o.orderType ∧
      oA.quantity = o.quantity ∧
      oA.filledQty = o.filledQty ∧
      oA.leavesQty = o.leavesQty ∧
      stB.ex.openOrders = st.ex.openOrders ++ [o.clientOrderId] ∧
      stB.ex.venue = st.ex.venue ∧
      stB.tradingState = st.tradingState ∧
      stB.ex.instruments = st.ex.instruments ∧
      cacheWF stB.cache := by
  have h1full := applyStatus_ok (o := o) (e := .submitted o.tsInit) rfl
    (by rw [hstatus]; show OrderStatus.SUBMITTED ∈ allowedTransitions .INITIALIZED; decide)
  cases hap1 : applyOrder o (.submitted o.tsInit) with
  | mk o1 err1 =>
    rw [hap1] at h1full
    have herr1 : err1 = none := h1full.1
    subst herr1
    have h1st : o1.status = .SUBMITTED := h1full.2.1
    have h1cid : o1.clientOrderId = o.clientOrderId := h1full.2.2.2.2.2.2.2.2.1
    simp only [submitOrder, hval, hap1] at hsub
    rw [if_pos hvenue] at hsub
    simp only [processOrder] at hsub
    have hlook : (st.cache.addOrder o1).order o1.clientOrderId = some o1 := by
      show assocFind (assocPut st.cache.orders o1.clientOrderId o1) o1.clientOrderId
        = some o1
      exact assocFind_put_self _ _ _
    rw [hlook] at hsub
    dsimp only at hsub
    have h2full := applyStatus_ok (o := o1)
      (e := .accepted (some (st.ex.venueOrderCounter + 1)) o1.tsInit) rfl
      (by rw [h1st]; show OrderStatus.ACCEPTED ∈ allowedTransitions .SUBMITTED; decide)
    cases hap2 : applyOrder o1 (.accepted (some (st.ex.venueOrderCounter + 1)) o1.tsInit) with
    | mk o2 err2 =>
      rw [hap2] at h2full
      have herr2 : err2 = none := h2full.1
      subst herr2
      rw [hap2] at hsub
      have hstB : stB = _ := (Except.ok.inj hsub).symm
      subst hstB
      have h2cid : o2.clientOrderId = o1.clientOrderId := h2full.2.2.2.2.2.2.2.2.1
      refine ⟨o2, ?_, h2full.2.1, h2cid.trans h1cid, ?_, ?_, ?_, ?_, ?_, ?_, rfl, rfl,
        rfl, ?_⟩
      · show assocFind (assocPut (st.cache.addOrder o1).orders o2.clientOrderId o2)
          o.clientOrderId = some o2
        rw [h2cid, h1cid]
        exact assocFind_put_self _ _ _
      · exact h2full.2.2.2.2.2.2.2.1.trans h1full.2.2.2.2.2.2.2.1
      · exact h2full.2.2.2.2.2.2.2.2.2.2.2.1.trans h1full.2.2.2.2.2.2.2.2.2.2.2.1
      · exact h2full.2.2.1.trans h1full.2.2.1
      · exact h2full.2.2.2.1.trans h1full.2.2.2.1
      · exact h2full.2.2.2.2.1.trans h1full.2.2.2.2.1
      · show st.ex.openOrders ++ [o1.clientOrderId] = st.ex.openOrders ++ [o.clientOrderId]
        rw [h1cid]
      · exact cacheWF_updateOrder (cacheWF_addOrder hwf o1) o2

/-- Frame of one bar's matching loop: the trading state, instruments and
venue survive, cache well-formedness is preserved, orders outside the
scanned id list keep their cache entries, and the resulting open-order
list only contains previously scanned or kept ids. -/
theorem btGo_frame (b : Bar) :
    ∀ (ids : List ℕ) (st : BtState) (kept : List ℕ) (evs : List OrderFilledEv)
      (stF : BtState) (evsF : List OrderFilledEv),
      cacheWF st.cache →
      btProcessBar.go b st ids kept evs = .ok (stF, evsF) →
      stF.tradingState = st.tradingState ∧
      stF.cache.instruments = st.cache.instruments ∧
      stF.ex.venue = st.ex.venue ∧
      stF.ex.instruments = st.ex.instruments ∧
      cacheWF stF.cache ∧
      (∀ i, i ∉ ids → stF.cache.order i = st.cache.order i) ∧
      (∀ i, i ∈ stF.ex.openOrders → i ∈ ids ∨ i ∈ kept) := by
  intro ids
  induction ids with
  | nil =>
    intro st kept evs stF evsF hwf hgo
    simp only [btProcessBar.go] at hgo
    injection hgo with h
    injection h with h1 h2
    subst h1
    refine ⟨rfl, rfl, rfl, rfl, hwf, fun i _ => rfl, fun i hi => ?_⟩
    exact Or.inr (List.mem_reverse.mp hi)
  | cons c rest ih =>
    intro st kept evs stF evsF hwf hgo
    simp only [btProcessBar.go] at hgo
    cases hlookup : st.cache.order c with
    | none =>
      simp only [hlookup] at hgo
      obtain ⟨f1, f2, f3, f4, f5, f6, f7⟩ := ih st (c :: kept) evs stF evsF hwf hgo
      refine ⟨f1, f2, f3, f4, f5, ?_, ?_⟩
      · intro i hi
        exact f6 i (fun hr => hi (List.mem_cons_of_mem _ hr))
      · intro i hi
        rcases f7 i hi with h | h
        · exact Or.inl (List.mem_cons_of_mem _ h)
        · rcases List.mem_cons.mp h with h2 | h2
          · subst h2; exact Or.inl (List.mem_cons_self _ _)
          · exact Or.inr h2
    | some o =>
      simp only [hlookup] at hgo
      by_cases hins : o.instrumentId ≠ b.barType.instrumentId
      · rw [if_pos hins] at hgo
        obtain ⟨f1, f2, f3, f4, f5, f6, f7⟩ := ih st (c :: kept) evs stF evsF hwf hgo
        refine ⟨f1, f2, f3, f4, f5, ?_, ?_⟩
        · intro i hi
          exact f6 i (fun hr => hi (List.mem_cons_of_mem _ hr))
        · intro i hi
          rcases f7 i hi with h | h
          · exact Or.inl (List.mem_cons_of_mem _ h)
          · rcases List.mem_cons.mp h with h2 | h2
            · subst h2; exact Or.inl (List.mem_cons_self _ _)
            · exact Or.inr h2
      · rw [if_neg hins] at hgo
        by_cases hop : o.isOpen = true
        · rw [if_neg (not_not_intro hop)] at hgo
          cases hcf : checkFill st.ex.instruments o b with
          | none =>
            simp only [hcf] at hgo
            obtain ⟨f1, f2, f3, f4, f5, f6, f7⟩ := ih st (c :: kept) evs stF evsF hwf hgo
            refine ⟨f1, f2, f3, f4, f5, ?_, ?_⟩
            · intro i hi
              exact f6 i (fun hr => hi (List.mem_cons_of_mem _ hr))
            · intro i hi
              rcases f7 i hi with h | h
              · exact Or.inl (List.mem_cons_of_mem _ h)
              · rcases List.mem_cons.mp h with h2 | h2
                · subst h2; exact Or.inl (List.mem_cons_self _ _)
                · exact Or.inr h2
          | some px =>
            simp only [hcf] at hgo
            cases hfo : fillOrder st.ex o px b.tsEvent with
            | mk ex2 ev =>
              simp only [hfo] at hgo
              cases hh : handleFill { st with ex := ex2 } ev with
              | error er => simp only [hh] at hgo; exact Except.noConfusion hgo
              | ok st2 =>
                simp only [hh] at hgo
                obtain ⟨gex, gts, gins, gwf, gord⟩ :=
                  handleFill_frame { st with ex := ex2 } hwf hh
                have hexv : ex2.venue = st.ex.venue := by
                  have h0 : (fillOrder st.ex o px b.tsEvent).1.venue = st.ex.venue := rfl
                  rw [hfo] at h0; exact h0
                have hexi : ex2.instruments = st.ex.instruments := by
                  have h0 : (fillOrder st.ex o px b.tsEvent).1.instruments
                      = st.ex.instruments := rfl
                  rw [hfo] at h0; exact h0
                have hevcid : ev.clientOrderId = o.clientOrderId := by
                  have h0 : (fillOrder st.ex o px b.tsEvent).2.clientOrderId
                      = o.clientOrderId := rfl
                  rw [hfo] at h0; exact h0
                have hocid : o.clientOrderId = c := hwf _ (assocFind_mem hlookup)
                obtain ⟨f1, f2, f3, f4, f5, f6, f7⟩ :=
                  ih st2 kept (ev :: evs) stF evsF gwf hgo
                refine ⟨f1.trans gts, f2.trans gins, ?_, ?_, f5, ?_, ?_⟩
                · rw [f3, gex]; exact hexv
                · rw [f4, gex]; exact hexi
                · intro i hi
                  have hir : i ∉ rest := fun hr => hi (List.mem_cons_of_mem _ hr)
                  have hic : i ≠ c := fun he => hi (he ▸ List.mem_cons_self _ _)
                  rw [f6 i hir, gord i (fun he => hic (he.trans (hevcid.trans hocid)))]
                · intro i hi
                  rcases f7 i hi with h | h
                  · exact Or.inl (List.mem_cons_of_mem _ h)
                  · exact Or.inr h
        · rw [if_pos hop] at hgo
          obtain ⟨f1, f2, f3, f4, f5, f6, f7⟩ := ih st kept evs stF evsF hwf hgo
          refine ⟨f1, f2, f3, f4, f5, ?_, ?_⟩
          · intro i hi
            exact f6 i (fun hr => hi (List.mem_cons_of_mem _ hr))
          · intro i hi
            rcases f7 i hi with h | h
            · exact Or.inl (List.mem_cons_of_mem _ h)
            · exact Or.inr h

/-- Continuation of the matching loop past an order already filled:
an emitted event stays in the final event list, the filled order's
cache entry survives the rest of the scan, and its id never re-enters
the open-order list. -/
theorem btGo_keeps (b : Bar) (cid : ℕ) (ev0 : OrderFilledEv) (oF : Order) :
    ∀ (L : List ℕ) (st : BtState) (kept : List ℕ) (evs : List OrderFilledEv)
      (stF : BtState) (evsF : List OrderFilledEv),
      cacheWF st.cache →
      cid ∉ L → cid ∉ kept →
      st.cache.order cid = some oF →
      ev0 ∈ evs →
      btProcessBar.go b st L kept evs = .ok (stF, evsF) →
      ev0 ∈ evsF ∧ stF.cache.order cid = some oF ∧ cid ∉ stF.ex.openOrders := by
  intro L
  induction L with
  | nil =>
    intro st kept evs stF evsF hwf hL hkept hlook hev hgo
    simp only [btProcessBar.go] at hgo
    injection hgo with h
    injection h with h1 h2
    subst h1
    subst h2
    exact ⟨List.mem_reverse.mpr hev, hlook, fun hc => hkept (List.mem_reverse.mp hc)⟩
  | cons c rest ih =>
    intro st kept evs stF evsF hwf hL hkept hlook hev hgo
    have hcidc : cid ≠ c := fun he => hL (he ▸ List.mem_cons_self _ _)
    have hLr : cid ∉ rest := fun hr => hL (List.mem_cons_of_mem _ hr)
    simp only [btProcessBar.go] at hgo
    cases hlookup : st.cache.order c with
    | none =>
      simp only [hlookup] at hgo
      exact ih st (c :: kept) evs stF evsF hwf hLr
        (fun hm => (List.mem_cons.mp hm).elim hcidc hkept) hlook hev hgo
    | some o =>
      simp only [hlookup] at hgo
      by_cases hins : o.instrumentId ≠ b.barType.instrumentId
      · rw [if_pos hins] at hgo
        exact ih st (c :: kept) evs stF evsF hwf hLr
          (fun hm => (List.mem_cons.mp hm).elim hcidc hkept) hlook hev hgo
      · rw [if_neg hins] at hgo
        by_cases hop : o.isOpen = true
        · rw [if_neg (not_not_intro hop)] at hgo
          cases hcf : checkFill st.ex.instruments o b with
          | none =>
            simp only [hcf] at hgo
            exact ih st (c :: kept) evs stF evsF hwf hLr
              (fun hm => (List.mem_cons.mp hm).elim hcidc hkept) hlook hev hgo
          | some px =>
            simp only [hcf] at hgo
            cases hfo : fillOrder st.ex o px b.tsEvent with
            | mk ex2 ev =>
              simp only [hfo] at hgo
              cases hh : handleFill { st with ex := ex2 } ev with
              | error er => simp only [hh] at hgo; exact Except.noConfusion hgo
              | ok st2 =>
                simp only [hh] at hgo
                obtain ⟨gex, gts, gins, gwf, gord⟩ :=
                  handleFill_frame { st with ex := ex2 } hwf hh
                have hevcid : ev.clientOrderId = o.clientOrderId := by
                  have h0 : (fillOrder st.ex o px b.tsEvent).2.clientOrderId
                      = o.clientOrderId := rfl
                  rw [hfo] at h0; exact h0
                have hocid : o.clientOrderId = c := hwf _ (assocFind_mem hlookup)
                have hlook2 : st2.cache.order cid = some oF := by
                  rw [gord cid (fun he => hcidc (he.trans (hevcid.trans hocid)))]
                  exact hlook
                exact ih st2 kept (ev :: evs) stF evsF gwf hLr hkept hlook2
                  (List.mem_cons_of_mem _ hev) hgo
        · rw [if_pos hop] at hgo
          exact ih st kept evs stF evsF hwf hLr hkept hlook hev hgo

/-- The matching loop fills a resting accepted market order for the
bar's instrument: the scan reaches it (its id occurring once), fills it
at the bar's open for its whole quantity, records the FILLED order in
the cache and drops its id from the open-order list. -/
theorem btGo_fills (b : Bar) (cid : ℕ) :
    ∀ (L1 L2 kept : List ℕ) (evs : List OrderFilledEv) (st : BtState)
      (oA : Order) (stF : BtState) (evsF : List OrderFilledEv),
      cacheWF st.cache →
      cid ∉ L1 → cid ∉ L2 → cid ∉ kept →
      st.cache.order cid = some oA →
      oA.instrumentId = b.barType.instrumentId →
      oA.orderType = .MARKET →
      oA.status = .ACCEPTED →
      oA.filledQty.value = 0 →
      oA.leavesQty.value = oA.quantity.value →
      ctxRound oA.quantity.value = oA.quantity.value →
      quantizeHalfUp oA.quantity.precision oA.quantity.value = oA.quantity.value →
      0 ≤ oA.quantity.value →
      btProcessBar.go b st (L1 ++ cid :: L2) kept evs = .ok (stF, evsF) →
      (∃ ev, ev ∈ evsF ∧ ev.clientOrderId = cid ∧ ev.lastPx = b.openPx ∧
        ev.lastQty.value = oA.quantity.value) ∧
      (∃ oF, stF.cache.order cid = some oF ∧ oF.status = .FILLED ∧
        oF.filledQty.value = oA.quantity.value) ∧
      cid ∉ stF.ex.openOrders := by
  intro L1
  induction L1 with
  | nil =>
    intro L2 kept evs st oA stF evsF hwf hL1 hL2 hkept hlook hinst htype hstat hf0 hlv
      hrq hqz hq0 hgo
    rw [List.nil_append] at hgo
    simp only [btProcessBar.go] at hgo
    have hocid : oA.clientOrderId = cid := hwf _ (assocFind_mem hlook)
    simp only [hlook] at hgo
    rw [if_neg (not_not_intro hinst)] at hgo
    have hopen : oA.isOpen = true := by simp [Order.isOpen, hstat]
    rw [if_neg (not_not_intro hopen)] at hgo
    simp only [checkFill_market st.ex.instruments oA b htype] at hgo
    cases hfo : fillOrder st.ex oA b.openPx b.tsEvent with
    | mk ex2 ev =>
      simp only [hfo] at hgo
      have hevcid : ev.clientOrderId = oA.clientOrderId := by
        have h0 : (fillOrder st.ex oA b.openPx b.tsEvent).2.clientOrderId
            = oA.clientOrderId := rfl
        rw [hfo] at h0; exact h0
      have hevq : ev.lastQty = oA.leavesQty := by
        have h0 : (fillOrder st.ex oA b.openPx b.tsEvent).2.lastQty = oA.leavesQty := rfl
        rw [hfo] at h0; exact h0
      have hevpx : ev.lastPx = b.openPx := by
        have h0 : (fillOrder st.ex oA b.openPx b.tsEvent).2.lastPx = b.openPx := rfl
        rw [hfo] at h0; exact h0
      have hevts : ev.tsEvent = b.tsEvent := by
        have h0 : (fillOrder st.ex oA b.openPx b.tsEvent).2.tsEvent = b.tsEvent := rfl
        rw [hfo] at h0; exact h0
      obtain ⟨oF, happ, hFst, hFfq, hFcid⟩ := applyFilled_full oA b.openPx
        oA.venueOrderId b.tsEvent hstat hf0 hlv hrq hqz hq0
      have htoev : OrderFilledEv.toOrderEvent ev oA.venueOrderId
          = .filled oA.leavesQty b.openPx oA.venueOrderId b.tsEvent := by
        simp only [OrderFilledEv.toOrderEvent, hevq, hevpx, hevts]
      have hap2 : applyOrder oA (OrderFilledEv.toOrderEvent ev oA.venueOrderId)
          = (oF, none) := by
        rw [htoev, applyOrder_filled]
        exact happ
      have hlookEv : ({ st with ex := ex2 } : BtState).cache.order ev.clientOrderId
          = some oA := by
        rw [hevcid, hocid]
        exact hlook
      obtain ⟨st2, hhf, hex2, hts2, horders2, hinsts2⟩ := handleFill_found hlookEv hap2
      simp only [hhf] at hgo
      have hoFcid : oF.clientOrderId = cid := hFcid.trans hocid
      have hlook3 : st2.cache.order cid = some oF := by
        show assocFind st2.cache.orders cid = some oF
        rw [horders2, ← hoFcid]
        exact assocFind_put_self _ _ _
      have hwf2 : cacheWF st2.cache := by
        intro kv hkv
        rw [horders2] at hkv
        rcases assocPut_mem hkv with h1 | h1
        · rw [h1]
        · exact hwf kv h1
      obtain ⟨k1, k2, k3⟩ := btGo_keeps b cid ev oF L2 st2 kept (ev :: evs) stF evsF
        hwf2 hL2 hkept hlook3 (List.mem_cons_self _ _) hgo
      refine ⟨⟨ev, k1, hevcid.trans hocid, hevpx, ?_⟩, ⟨oF, k2, hFst, hFfq⟩, k3⟩
      rw [hevq, hlv]
  | cons c L1' ih =>
    intro L2 kept evs st oA stF evsF hwf hL1 hL2 hkept hlook hinst htype hstat hf0 hlv
      hrq hqz hq0 hgo
    have hcidc : cid ≠ c := fun he => hL1 (he ▸ List.mem_cons_self _ _)
    have hL1r : cid ∉ L1' := fun hr => hL1 (List.mem_cons_of_mem _ hr)
    rw [List.cons_append] at hgo
    simp only [btProcessBar.go] at hgo
    cases hlookup : st.cache.order c with
    | none =>
      simp only [hlookup] at hgo
      exact ih L2 (c :: kept) evs st oA stF evsF hwf hL1r hL2
        (fun hm => (List.mem_cons.mp hm).elim hcidc hkept) hlook hinst htype hstat hf0
        hlv hrq hqz hq0 hgo
    | some o =>
      simp only [hlookup] at hgo
      by_cases hins : o.instrumentId ≠ b.barType.instrumentId
      · rw [if_pos hins] at hgo
        exact ih L2 (c :: kept) evs st oA stF evsF hwf hL1r hL2
          (fun hm => (List.mem_cons.mp hm).elim hcidc hkept) hlook hinst htype hstat hf0
          hlv hrq hqz hq0 hgo
      · rw [if_neg hins] at hgo
        by_cases hop : o.isOpen = true
        · rw [if_neg (not_not_intro hop)] at hgo
          cases hcf : checkFill st.ex.instruments o b with
          | none =>
            simp only [hcf] at hgo
            exact ih L2 (c :: kept) evs st oA stF evsF hwf hL1r hL2
              (fun hm => (List.mem_cons.mp hm).elim hcidc hkept) hlook hinst htype hstat
              hf0 hlv hrq hqz hq0 hgo
          | some px =>
            simp only [hcf] at hgo
            cases hfo : fillOrder st.ex o px b.tsEvent with
            | mk ex2 ev =>
              simp only [hfo] at hgo
              cases hh : handleFill { st with ex := ex2 } ev with
              | error er => simp only [hh] at hgo; exact Except.noConfusion hgo
              | ok st2 =>
                simp only [hh] at hgo
                obtain ⟨gex, gts, gins, gwf, gord⟩ :=
                  handleFill_frame { st with ex := ex2 } hwf hh
                have hevcid : ev.clientOrderId = o.clientOrderId := by
                  have h0 : (fillOrder st.ex o px b.tsEvent).2.clientOrderId
                      = o.clientOrderId := rfl
                  rw [hfo] at h0; exact h0
                have hocid2 : o.clientOrderId = c := hwf _ (assocFind_mem hlookup)
                have hlook2 : st2.cache.order cid = some oA := by
                  rw [gord cid (fun he => hcidc (he.trans (hevcid.trans hocid2)))]
                  exact hlook
                exact ih L2 kept (ev :: evs) st2 oA stF evsF gwf hL1r hL2 hkept hlook2
                  hinst htype hstat hf0 hlv hrq hqz hq0 hgo
        · rw [if_pos hop] at hgo
          exact ih L2 kept evs st oA stF evsF hwf hL1r hL2 hkept hlook hinst htype hstat
            hf0 hlv hrq hqz hq0 hgo

/-- Frame of `process_bar` over the whole open-order list. -/
theorem btProcessBar_frame {st : BtState} {b : Bar} {stF : BtState}
    {evsF : List OrderFilledEv} (hwf : cacheWF st.cache)
    (h : btProcessBar st b = .ok (stF, evsF)) :
    stF.tradingState = st.tradingState ∧
    stF.cache.instruments = st.cache.instruments ∧
    stF.ex.venue = st.ex.venue ∧
    stF.ex.instruments = st.ex.instruments ∧
    cacheWF stF.cache ∧
    (∀ i, i ∉ st.ex.openOrders → stF.cache.order i = st.cache.order i) ∧
    (∀ i, i ∈ stF.ex.openOrders → i ∈ st.ex.openOrders) := by
  simp only [btProcessBar] at h
  obtain ⟨f1, f2, f3, f4, f5, f6, f7⟩ := btGo_frame b st.ex.openOrders st [] [] stF evsF
    hwf h
  refine ⟨f1, f2, f3, f4, f5, f6, fun i hi => ?_⟩
  rcases f7 i hi with h2 | h2
  · exact h2
  · cases h2

/-- C1: a market order submitted by a strategy during bar N (after the
exchange has matched resting orders against bar N) does not fill on
bar N — it rests on the exchange in ACCEPTED status with nothing
filled — and on the next bar for its instrument it fills at that bar's
open price for its full quantity, leaving the open-order list. -/
theorem C1_market_order_next_bar
    (st : BtState) (bN bM : Bar) (o : Order) (strat : Bar → List Order) (st1 : BtState)
    (hwf : cacheWF st.cache)
    (htype : o.orderType = .MARKET)
    (hstatus : o.status = .INITIALIZED)
    (hf0 : o.filledQty.value = 0)
    (hlv : o.leavesQty.value = o.quantity.value)
    (hfreshOpen : o.clientOrderId ∉ st.ex.openOrders)
    (hvenueO : o.instrumentId.venue = st.ex.venue)
    (hactive : st.tradingState = .ACTIVE)
    (hval : validateOrder .ACTIVE st.cache o = none)
    (hstrat : strat bN = [o])
    (hinstM : bM.barType.instrumentId = o.instrumentId)
    (hrq : ctxRound o.quantity.value = o.quantity.value)
    (hqz : quantizeHalfUp o.quantity.precision o.quantity.value = o.quantity.value)
    (hq0 : 0 ≤ o.quantity.value)
    (hstep : engineStepBar st bN strat = .ok st1) :
    (∃ oA, st1.cache.order o.clientOrderId = some oA ∧ oA.status = .ACCEPTED ∧
      oA.filledQty.value = 0 ∧ oA.orderType = .MARKET) ∧
    o.clientOrderId ∈ st1.ex.openOrders ∧
    (∀ st2 evs, btProcessBar st1 bM = .ok (st2, evs) →
      (∃ ev, ev ∈ evs ∧ ev.clientOrderId = o.clientOrderId ∧ ev.lastPx = bM.openPx ∧
        ev.lastQty.value = o.quantity.value) ∧
      (∃ oF, st2.cache.order o.clientOrderId = some oF ∧ oF.status = .FILLED ∧
        oF.filledQty.value = o.quantity.value) ∧
      o.clientOrderId ∉ st2.ex.openOrders) := by
  have main : ∀ stA : BtState,
      cacheWF stA.cache →
      stA.tradingState = st.tradingState →
      stA.cache.instruments = st.cache.instruments →
      stA.ex.venue = st.ex.venue →
      (∀ i, i ∈ stA.ex.openOrders → i ∈ st.ex.openOrders) →
      List.foldlM (fun acc oo => submitOrder acc oo) stA [o] = .ok st1 →
      (∃ oA, st1.cache.order o.clientOrderId = some oA ∧ oA.status = .ACCEPTED ∧
        oA.filledQty.value = 0 ∧ oA.orderType = .MARKET) ∧
      o.clientOrderId ∈ st1.ex.openOrders ∧
      (∀ st2 evs, btProcessBar st1 bM = .ok (st2, evs) →
        (∃ ev, ev ∈ evs ∧ ev.clientOrderId = o.clientOrderId ∧ ev.lastPx = bM.openPx ∧
          ev.lastQty.value = o.quantity.value) ∧
        (∃ oF, st2.cache.order o.clientOrderId = some oF ∧ oF.status = .FILLED ∧
          oF.filledQty.value = o.quantity.value) ∧
        o.clientOrderId ∉ st2.ex.openOrders) := by
    intro stA hAwf hAts hAins hAv hAoo hfold
    have hfold2 : (submitOrder stA o >>= fun s =>
        List.foldlM (fun acc oo => submitOrder acc oo) s []) = .ok st1 := hfold
    cases hso : submitOrder stA o with
    | error er =>
      rw [hso] at hfold2
      have h3 : (Except.error er : Except ApplyError BtState) = .ok st1 := hfold2
      exact Except.noConfusion h3
    | ok stB =>
      rw [hso] at hfold2
      have h3 : (Except.ok stB : Except ApplyError BtState) = .ok st1 := hfold2
      have hstB : stB = st1 := Except.ok.inj h3
      subst hstB
      have hvalA : validateOrder stA.tradingState stA.cache o = none := by
        rw [hAts, hactive, validateOrder_active_congr stA.cache st.cache o hAins]
        exact hval
      have hvenueA : o.instrumentId.venue = stA.ex.venue := by
        rw [hAv]; exact hvenueO
      obtain ⟨oA, s1, s2, s3, s4, s5, s6, s7, s8, s9, s10, s11, s12, s13⟩ :=
        submitOrder_rests hAwf hvalA hstatus hvenueA hso
      refine ⟨⟨oA, s1, s2, ?_, ?_⟩, ?_, ?_⟩
      · rw [s7]; exact hf0
      · rw [s5]; exact htype
      · rw [s9]; exact List.mem_append_right _ (List.mem_cons_self _ _)
      · intro stc evsM hpb
        simp only [btProcessBar] at hpb
        rw [s9] at hpb
        have hnotin : o.clientOrderId ∉ stA.ex.openOrders :=
          fun hm => hfreshOpen (hAoo _ hm)
        obtain ⟨c1, c2, c3⟩ := btGo_fills bM o.clientOrderId stA.ex.openOrders [] [] []
          stB oA stc evsM s13 hnotin (by simp) (by simp) s1
          (by rw [s4, hinstM]) (by rw [s5]; exact htype) s2
          (by rw [s7]; exact hf0) (by rw [s8, s6]; exact hlv)
          (by rw [s6]; exact hrq) (by rw [s6]; exact hqz) (by rw [s6]; exact hq0) hpb
        rw [s6] at c1 c2
        exact ⟨c1, c2, c3⟩
  simp only [engineStepBar] at hstep
  by_cases hbv : bN.barType.instrumentId.venue = st.ex.venue
  · simp only [if_pos hbv] at hstep
    cases hpbN : btProcessBar st bN with
    | error er =>
      simp only [hpbN] at hstep
      exact Except.noConfusion hstep
    | ok p =>
      obtain ⟨stA, evsN⟩ := p
      simp only [hpbN] at hstep
      rw [hstrat] at hstep
      obtain ⟨fA1, fA2, fA3, fA4, fA5, fA6, fA7⟩ := btProcessBar_frame hwf hpbN
      exact main stA fA5 fA1 fA2 fA3 fA7 hstep
  · simp only [if_neg hbv] at hstep
    rw [hstrat] at hstep
    exact main st hwf rfl rfl rfl (fun i hi => hi) hstep

/-- A market order matching the registered instrument exactly (size
precision 0), for the C1 witness. -/
def wOrdC1 : Order := mkOrder 1 ⟨1, 1⟩ 1 .BUY .MARKET ⟨100, 0⟩ none none 0

/-- A strategy that submits the market order on the ts-0 bar only. -/
def wStratC1 : Bar → List Order := fun b => if b.tsEvent = 0 then [wOrdC1] else []

/-- The next bar for the same instrument, opening at 100.5. -/
def wBar2 : Bar :=
  ⟨⟨⟨1, 1⟩⟩, ⟨mkRat 201 2, 2⟩, ⟨102, 2⟩, ⟨100, 2⟩, ⟨101, 2⟩, ⟨1000, 0⟩, 10⟩

/-- The engine state after bar N of the C1 witness run. -/
def wSt1C1 : BtState :=
  match engineStepBar wSt wBar wStratC1 with
  | .ok s => s
  | .error _ => wSt

/-- Witness for C1 at the concrete run: the order rests after the ts-0
bar and the ts-10 bar fills it at its open. -/
theorem C1_witness :
    (∃ oA, wSt1C1.cache.order wOrdC1.clientOrderId = some oA ∧ oA.status = .ACCEPTED ∧
      oA.filledQty.value = 0 ∧ oA.orderType = .MARKET) ∧
    wOrdC1.clientOrderId ∈ wSt1C1.ex.openOrders ∧
    (∀ st2 evs, btProcessBar wSt1C1 wBar2 = .ok (st2, evs) →
      (∃ ev, ev ∈ evs ∧ ev.clientOrderId = wOrdC1.clientOrderId ∧
        ev.lastPx = wBar2.openPx ∧ ev.lastQty.value = wOrdC1.quantity.value) ∧
      (∃ oF, st2.cache.order wOrdC1.clientOrderId = some oF ∧ oF.status = .FILLED ∧
        oF.filledQty.value = wOrdC1.quantity.value) ∧
      wOrdC1.clientOrderId ∉ st2.ex.openOrders) :=
  C1_market_order_next_bar wSt wBar wBar2 wOrdC1 wStratC1 wSt1C1
    (by intro kv hkv; cases hkv) (by decide) (by decide) (by decide) (by decide)
    (by decide) (by decide) (by decide) (by decide) (by decide) (by decide)
    (by decide) (by decide) (by decide) (by rfl)

end Nautilus
